import Mathlib

/-!
# Verification of the parquet schema-reconciliation core (`arrow_utils.rs`)

Shallow embedding of `kernel/src/engine/arrow_utils.rs`:
* the reorder-plan data model (`ReorderIndex`, `ReorderIndexTransform`),
* index planning (`get_indices` / `get_requested_indices`),
* plan application (`reorder_struct_array`, `reorder_list`, `reorder_map`),
* null-mask reconciliation (`fix_nested_null_masks` / `compute_nested_null_masks`),
together with theorems settling the frozen claims about them.

Arrow-library values (schemas, arrays, null buffers) are modelled explicitly;
kernel schema types and the few kernel helpers that live outside the embedded
file (`ensure_data_types`, kernel-to-arrow schema conversion) are modelled from
the specification, and are marked as such in their doc comments.
-/

namespace DK

/-! ## Arrow schema model

Mirrors `crate::arrow::datatypes::{DataType, Field}` restricted to the
constructors this code manipulates.  `map` carries the single `entries` field
and the `sorted` flag, as in arrow.  Validity bitmaps use the arrow convention:
`true` means the row is valid, `false` means NULL. -/

mutual

inductive ArrowDataType where
  | int8 | int16 | int32 | int64
  | float32 | float64
  | boolean
  | utf8 | binary
  | date32
  | timestampMicroUtc | timestampMicroNtz
  | decimal (p s : Nat)
  | struct (fields : List ArrowField)
  | list (field : ArrowField)
  | largeList (field : ArrowField)
  | listView (field : ArrowField)
  | fixedSizeList (field : ArrowField) (n : Nat)
  | map (entries : ArrowField) (sorted : Bool)

inductive ArrowField where
  | mk (name : String) (dataType : ArrowDataType) (nullable : Bool)

end

def ArrowField.name : ArrowField → String
  | .mk n _ _ => n

def ArrowField.dataType : ArrowField → ArrowDataType
  | .mk _ dt _ => dt

def ArrowField.nullable : ArrowField → Bool
  | .mk _ _ b => b

/-! ## Kernel schema model

Modelled from the spec: the kernel's `schema` module (`DataType`, `StructField`,
`StructType`) is not under `src/`; §3 of the spec describes it.  A logical type
is a primitive, a struct, a variant (struct-shaped), an array or a map. -/

mutual

inductive KDataType where
  | string | long | integer | short | byte
  | float | double
  | boolean | binary | date
  | timestamp | timestampNtz
  | decimal (p s : Nat)
  | struct (fields : List KStructField)
  | variant (fields : List KStructField)
  | array (elementType : KDataType) (containsNull : Bool)
  | map (keyType : KDataType) (valueType : KDataType) (valueContainsNull : Bool)

inductive KStructField where
  | mk (name : String) (dataType : KDataType) (nullable : Bool)

end

def KStructField.name : KStructField → String
  | .mk n _ _ => n

def KStructField.dataType : KStructField → KDataType
  | .mk _ dt _ => dt

def KStructField.nullable : KStructField → Bool
  | .mk _ _ b => b

mutual

/-- Structural equality test for kernel data types (the kernel derives
`PartialEq`; used by `get_indices` for the `unshredded_variant` check). -/
def KDataType.beq : KDataType → KDataType → Bool
  | .string, .string => true
  | .long, .long => true
  | .integer, .integer => true
  | .short, .short => true
  | .byte, .byte => true
  | .float, .float => true
  | .double, .double => true
  | .boolean, .boolean => true
  | .binary, .binary => true
  | .date, .date => true
  | .timestamp, .timestamp => true
  | .timestampNtz, .timestampNtz => true
  | .decimal p s, .decimal p' s' => p == p' && s == s'
  | .struct fs, .struct fs' => KStructField.beqList fs fs'
  | .variant fs, .variant fs' => KStructField.beqList fs fs'
  | .array e n, .array e' n' => KDataType.beq e e' && n == n'
  | .map k v n, .map k' v' n' => KDataType.beq k k' && KDataType.beq v v' && n == n'
  | _, _ => false

def KStructField.beq : KStructField → KStructField → Bool
  | .mk n dt b, .mk n' dt' b' => n == n' && KDataType.beq dt dt' && b == b'

def KStructField.beqList : List KStructField → List KStructField → Bool
  | [], [] => true
  | f :: fs, f' :: fs' => KStructField.beq f f' && KStructField.beqList fs fs'
  | _, _ => false

end

/-- `DataType::unshredded_variant()`: a variant whose struct representation is
exactly `{metadata: BINARY, value: BINARY}`, both non-nullable.  Modelled from
the spec (kernel `schema` module is not under `src/`). -/
def unshreddedVariant : KDataType :=
  .variant [.mk "metadata" .binary false, .mk "value" .binary false]

/-- `MapType::as_struct_schema(key_name, val_name)`: the two-field struct view
of a map; keys are never nullable (spec §3).  Modelled from the spec. -/
def mapAsStructSchema (keyType valueType : KDataType) (valueContainsNull : Bool)
    (keyName valName : String) : List KStructField :=
  [.mk keyName keyType false, .mk valName valueType valueContainsNull]

/-- `IndexMap::get_full` over one schema level: position and field of the first
entry carrying `name`. -/
def getFull (requested : List KStructField) (name : String) :
    Option (Nat × KStructField) :=
  go 0 requested
where
  go (i : Nat) : List KStructField → Option (Nat × KStructField)
    | [] => none
    | f :: rest => if f.name = name then some (i, f) else go (i + 1) rest

/-! ## Error model

One constructor per error-construction route used by the embedded code, plus a
`panic` constructor marking places where the Rust code would panic (vector
index out of bounds). -/

inductive KError where
  | generic (msg : String)
  | unexpectedColumnType (name : String)
  | internalError (msg : String)
  | schemaMismatch (msg : String)
  | arrowError (msg : String)
  | panic (msg : String)

/-! ## `count_cols` — number of physical leaf columns under a field -/

mutual

/-- `count_cols`: physical (leaf) column count of an `ArrowField`. -/
def countCols : ArrowField → Nat
  | .mk _ dt _ => countColsDT dt

/-- `_count_cols`.  Note the source recurses into `List`, `LargeList`,
`FixedSizeList` and `Map` but *not* `ListView`, which falls into the
"other types" arm and counts as 1. -/
def countColsDT : ArrowDataType → Nat
  | .struct fields => countColsList fields
  | .list f => countCols f
  | .largeList f => countCols f
  | .fixedSizeList f _ => countCols f
  | .map f _ => countCols f
  | _ => 1

def countColsList : List ArrowField → Nat
  | [] => 0
  | f :: rest => countCols f + countColsList rest

end

/-! ## `validate_parquet_variant` -/

/-- Error text produced by `variant_parquet_error`. -/
def variantParquetError (fieldName : String) : KError :=
  .generic ("The field " ++ fieldName ++ " presumed to be of Variant type might be" ++
    " shredded in the parquet file. The default engine does not support shredded reads yet.")

/-- `validate_parquet_variant`: the physical representation of a field of
`VARIANT` type must be a 2-field struct named `value`/`metadata` (either order). -/
def validateParquetVariant (field : ArrowField) : Except KError Unit :=
  match field.dataType with
  | .struct fields =>
      match fields with
      | [f0, f1] =>
          if (f0.name = "value" ∧ f1.name = "metadata") ∨
             (f0.name = "metadata" ∧ f1.name = "value") then
            .ok ()
          else
            .error (variantParquetError field.name)
      | _ => .error (variantParquetError field.name)
  | _ => .error (variantParquetError field.name)

/-! ## `ensure_data_types` (modelled)

Modelled from the spec: `engine/ensure_data_types.rs` is not under `src/`.
Spec §4.1: "classify physical↔logical compatibility as Identical,
SafeWiden(targetType), or Incompatible (→ fail)"; §8 fixes the widening
examples (physical int32 + logical LONG → Cast to Int64, physical float32 +
logical DOUBLE → Cast, physical int32 + logical INTEGER → Identity).  Numeric
widening follows the byte ≤ short ≤ int ≤ long and float ≤ double ladders. -/

inductive DataTypeCompat where
  | identical
  | needsCast (target : ArrowDataType)
  | nested

/-- Equality on the primitive (non-recursive) arrow data types; nested types
never compare equal here (sufficient for `ensureDataTypes`, whose candidates
are always primitive). -/
def ArrowDataType.beqShallow : ArrowDataType → ArrowDataType → Bool
  | .int8, .int8 => true
  | .int16, .int16 => true
  | .int32, .int32 => true
  | .int64, .int64 => true
  | .float32, .float32 => true
  | .float64, .float64 => true
  | .boolean, .boolean => true
  | .utf8, .utf8 => true
  | .binary, .binary => true
  | .date32, .date32 => true
  | .timestampMicroUtc, .timestampMicroUtc => true
  | .timestampMicroNtz, .timestampMicroNtz => true
  | .decimal p s, .decimal p' s' => p == p' && s == s'
  | _, _ => false

/-- The arrow type a kernel primitive type decodes to. -/
def arrowPrimFor : KDataType → Option ArrowDataType
  | .string => some .utf8
  | .long => some .int64
  | .integer => some .int32
  | .short => some .int16
  | .byte => some .int8
  | .float => some .float32
  | .double => some .float64
  | .boolean => some .boolean
  | .binary => some .binary
  | .date => some .date32
  | .timestamp => some .timestampMicroUtc
  | .timestampNtz => some .timestampMicroNtz
  | .decimal p s => some (.decimal p s)
  | _ => none

/-- Safe widening: physical arrow type to wider logical kernel type. -/
def safeWiden : ArrowDataType → KDataType → Option ArrowDataType
  | .int8, .short => some .int16
  | .int8, .integer => some .int32
  | .int8, .long => some .int64
  | .int16, .integer => some .int32
  | .int16, .long => some .int64
  | .int32, .long => some .int64
  | .float32, .double => some .float64
  | _, _ => none

/-- Modelled from the spec: `ensure_data_types` for the non-nested arm of
`get_indices` (nullability/metadata checks disabled there). -/
def ensureDataTypes (requested : KDataType) (physical : ArrowDataType) :
    Except KError DataTypeCompat :=
  match arrowPrimFor requested with
  | some target =>
      if ArrowDataType.beqShallow target physical then .ok .identical
      else
        match safeWiden physical requested with
        | some t => .ok (.needsCast t)
        | none => .error (.schemaMismatch "Incompatible data types")
  | none => .error (.schemaMismatch "Incompatible data types")

/-! ## Kernel-to-arrow schema conversion (modelled)

Modelled from the spec: the `arrow_conversion` module (`try_into_arrow`) is not
under `src/`.  Spec §4.1: a missing nullable field carries "a synthesized field
descriptor derived from its logical type". -/

mutual

def kToArrowDT : KDataType → ArrowDataType
  | .string => .utf8
  | .long => .int64
  | .integer => .int32
  | .short => .int16
  | .byte => .int8
  | .float => .float32
  | .double => .float64
  | .boolean => .boolean
  | .binary => .binary
  | .date => .date32
  | .timestamp => .timestampMicroUtc
  | .timestampNtz => .timestampMicroNtz
  | .decimal p s => .decimal p s
  | .struct fs => .struct (kToArrowFields fs)
  | .variant fs => .struct (kToArrowFields fs)
  | .array e n => .list (.mk "item" (kToArrowDT e) n)
  | .map k v n =>
      .map (.mk "key_value"
        (.struct [.mk "key" (kToArrowDT k) false, .mk "value" (kToArrowDT v) n])
        false) false

def toArrowField : KStructField → ArrowField
  | .mk n dt b => .mk n (kToArrowDT dt) b

def kToArrowFields : List KStructField → List ArrowField
  | [] => []
  | f :: fs => toArrowField f :: kToArrowFields fs

end

/-! ## The reorder plan: `ReorderIndex` / `ReorderIndexTransform` -/

mutual

inductive ReorderIndexTransform where
  /-- For a non-nested type, indicates that we need to cast to the contained type -/
  | cast (target : ArrowDataType)
  /-- Used for struct/list/map. Potentially transform child fields using contained reordering -/
  | nested (children : List ReorderIndex)
  /-- No work needed to transform this data -/
  | identity
  /-- Data is missing, fill in with a null column -/
  | missing (field : ArrowField)

inductive ReorderIndex where
  | mk (index : Nat) (transform : ReorderIndexTransform)

end

def ReorderIndex.index : ReorderIndex → Nat
  | .mk i _ => i

def ReorderIndex.transform : ReorderIndex → ReorderIndexTransform
  | .mk _ t => t

/-- `ReorderIndex::cast` -/
def ReorderIndex.cast (index : Nat) (target : ArrowDataType) : ReorderIndex :=
  .mk index (.cast target)

/-- `ReorderIndex::nested` -/
def ReorderIndex.nested (index : Nat) (children : List ReorderIndex) : ReorderIndex :=
  .mk index (.nested children)

/-- `ReorderIndex::identity` -/
def ReorderIndex.identity (index : Nat) : ReorderIndex :=
  .mk index .identity

/-- `ReorderIndex::missing` -/
def ReorderIndex.missing (index : Nat) (field : ArrowField) : ReorderIndex :=
  .mk index (.missing field)

mutual

/-- `ReorderIndex::needs_transform`: casting or inserting null needs a
transform; a nested ordering needs a transform when its children do;
identity does not. -/
def ReorderIndex.needsTransform : ReorderIndex → Bool
  | .mk _ (.cast _) => true
  | .mk _ (.missing _) => true
  | .mk _ (.nested children) => orderingNeedsTransform children
  | .mk _ .identity => false
termination_by r => (sizeOf r, 0)

/-- `ordering_needs_transform`: true if the indices are not in strictly
ascending order, or any element needs a transform.  Follows the source's
shape: an empty ordering needs none; otherwise check the first element, then
every adjacent window. -/
def orderingNeedsTransform (requestedOrdering : List ReorderIndex) : Bool :=
  match requestedOrdering with
  | [] => false
  | r0 :: rest => r0.needsTransform || orderingWindowsAny (r0 :: rest)
termination_by (sizeOf requestedOrdering, 1)

/-- `windows(2).any(|ri| ri[0].index >= ri[1].index || ri[1].needs_transform())` -/
def orderingWindowsAny : List ReorderIndex → Bool
  | a :: b :: rest =>
      (b.index ≤ a.index) || b.needsTransform || orderingWindowsAny (b :: rest)
  | _ => false
termination_by l => (sizeOf l, 0)

end

/-! ## Index planning: `get_indices` / `get_requested_indices`

The Rust loop threads five pieces of mutable state: the `enumerate` counter
(`parquet_index`), the running leaf offset (`parquet_offset`), the set of
matched requested-field names (`found_fields`), the reorder list and the mask
list (the latter a `&mut Vec` shared down the recursion; modelled by returning
each call's additions and appending).  `Nat` subtraction stands in for `usize`
subtraction; the `advance - 1` and `count_cols - 1` subtractions cannot
underflow for schemas whose fields all contain at least one leaf column, which
holds for every schema read from a parquet file (parquet groups are
non-empty). -/

structure GiState where
  parquetIndex : Nat
  parquetOffset : Nat
  found : List String
  reorders : List ReorderIndex
  mask : List Nat

/-- `HashSet::insert` on the found-fields set (order irrelevant, no duplicates). -/
def insertFound (found : List String) (name : String) : List String :=
  if name ∈ found then found else name :: found

/-- The post-loop walk over `requested_schema.fields().enumerate()`: each
unfound nullable field yields a `Missing` node carrying its synthesized arrow
field, in logical declaration order; an unfound non-nullable field is an
error. -/
def missingScan (found : List String) : Nat → List KStructField → Except KError (List ReorderIndex)
  | _, [] => .ok []
  | i, f :: rest =>
      if f.name ∈ found then
        missingScan found (i + 1) rest
      else if f.nullable then do
        let tail ← missingScan found (i + 1) rest
        .ok (ReorderIndex.missing i (toArrowField f) :: tail)
      else
        .error (.generic ("Requested field not found in parquet schema, and field is" ++
          " not nullable: " ++ f.name))

mutual

/-- One iteration of the `get_indices` field loop (the body of the
`for (parquet_index, field, field_info) in all_field_info` loop). -/
def giStep (requested : List KStructField) (st : GiState) :
    ArrowField → Except KError GiState
  | .mk fname fdt fnull =>
    match getFull requested fname with
    | some (index, requestedField) => do
        -- If the field is a variant, make sure the parquet schema matches the
        -- unshredded variant representation.
        let _ ← if KDataType.beq requestedField.dataType unshreddedVariant then
                  validateParquetVariant (.mk fname fdt fnull)
                else .ok ()
        match fdt with
        | .struct subfields =>
            match requestedField.dataType with
            | .struct rsub | .variant rsub => do
                let (parquetAdvance, children, childMask) ←
                  getIndices (st.parquetIndex + st.parquetOffset) rsub subfields
                .ok { parquetIndex := st.parquetIndex + 1
                      parquetOffset := st.parquetOffset + (parquetAdvance - 1)
                      found := insertFound st.found requestedField.name
                      reorders := st.reorders ++ [ReorderIndex.nested index children]
                      mask := st.mask ++ childMask }
            | _ => .error (.unexpectedColumnType fname)
        | .list listField | .largeList listField | .listView listField =>
            match requestedField.dataType with
            | .array elementType containsNull => do
                let innerRequested :=
                  [KStructField.mk listField.name elementType containsNull]
                let (parquetAdvance, children, childMask) ←
                  getIndices (st.parquetIndex + st.parquetOffset) innerRequested [listField]
                match children with
                | [child] =>
                    -- the index is wrong, as it is the index from the inner
                    -- schema; adjust it to be our index
                    .ok { parquetIndex := st.parquetIndex + 1
                          parquetOffset := st.parquetOffset + (parquetAdvance - 1)
                          found := insertFound st.found requestedField.name
                          reorders := st.reorders ++ [ReorderIndex.mk index child.transform]
                          mask := st.mask ++ childMask }
                | _ => .error (.generic
                    "List call should not have generated more than one reorder index")
            | _ => .error (.unexpectedColumnType listField.name)
        | .map keyValField _ =>
            match keyValField, requestedField.dataType with
            | .mk _ (.struct innerFields) _, .map keyType valueType valueContainsNull => do
                let (keyName, valName) ←
                  match innerFields.map ArrowField.name with
                  | [] => .error (.generic "map fields didn't include a key col")
                  | [_] => .error (.generic "map fields didn't include a val col")
                  | [k, v] => .ok (k, v)
                  | _ => .error (.generic "map fields had more than 2 members")
                let innerSchema :=
                  mapAsStructSchema keyType valueType valueContainsNull keyName valName
                let (parquetAdvance, children, childMask) ←
                  getIndices (st.parquetIndex + st.parquetOffset) innerSchema innerFields
                match children with
                | [c0, c1] =>
                    let (c0, i0) := if !c0.needsTransform then (ReorderIndex.identity 0, 1)
                                    else (c0, 0)
                    let (c1, i1) := if !c1.needsTransform then (ReorderIndex.identity 1, 1)
                                    else (c1, 0)
                    let transform := if i0 + i1 = 2 then ReorderIndex.identity index
                                     else ReorderIndex.nested index [c0, c1]
                    .ok { parquetIndex := st.parquetIndex + 1
                          parquetOffset := st.parquetOffset + (parquetAdvance - 1)
                          found := insertFound st.found requestedField.name
                          reorders := st.reorders ++ [transform]
                          mask := st.mask ++ childMask }
                | _ => .error (.generic
                    "Map call should have generated exactly two reorder indices")
            | _, _ => .error (.unexpectedColumnType fname)
        | _ => do
            let compat ← ensureDataTypes requestedField.dataType fdt
            let node ← match compat with
              | .identical => .ok (ReorderIndex.identity index)
              | .needsCast target => .ok (ReorderIndex.cast index target)
              | .nested => .error (.internalError "Comparing nested types in get_indices")
            .ok { parquetIndex := st.parquetIndex + 1
                  parquetOffset := st.parquetOffset
                  found := insertFound st.found requestedField.name
                  reorders := st.reorders ++ [node]
                  mask := st.mask ++ [st.parquetOffset + st.parquetIndex] }
    | none =>
        -- not selected: skip, but advance the leaf offset by the field's
        -- full descendant leaf count (minus the enumerate increment)
        .ok { st with
              parquetIndex := st.parquetIndex + 1
              parquetOffset := st.parquetOffset + (countCols (.mk fname fdt fnull) - 1) }
termination_by f => (sizeOf f, 2)

/-- The `get_indices` field loop. -/
def giLoop (requested : List KStructField) (st : GiState) :
    List ArrowField → Except KError GiState
  | [] => .ok st
  | f :: rest => do
      let st' ← giStep requested st f
      giLoop requested st' rest
termination_by fs => (sizeOf fs, 0)

/-- `get_indices`: returns the number of parquet fields in `fields` (the
"advance"), the reorder information for the requested fields, and this call's
additions to the shared mask vector. -/
def getIndices (startParquetOffset : Nat) (requestedSchema : List KStructField)
    (fields : List ArrowField) :
    Except KError (Nat × List ReorderIndex × List Nat) := do
  let st ← giLoop requestedSchema
    { parquetIndex := 0, parquetOffset := startParquetOffset,
      found := [], reorders := [], mask := [] } fields
  let reorderIndices ←
    if st.found.length ≠ requestedSchema.length then do
      let tail ← missingScan st.found 0 requestedSchema
      .ok (st.reorders ++ tail)
    else .ok st.reorders
  .ok (st.parquetOffset + st.parquetIndex - startParquetOffset, reorderIndices, st.mask)
termination_by (sizeOf fields, 1)

end

/-- `get_requested_indices`: mask indices and reorder indices for a requested
schema against a parquet schema. -/
def getRequestedIndices (requestedSchema : List KStructField)
    (parquetSchema : List ArrowField) :
    Except KError (List Nat × List ReorderIndex) := do
  let (_, reorderIndexes, maskIndices) ← getIndices 0 requestedSchema parquetSchema
  .ok (maskIndices, reorderIndexes)

/-! ## Arrow array model

Columnar data with explicit buffers, mirroring what the reorder code
manipulates: primitive arrays (values with per-row NULLs), struct arrays
(fields, child columns, own validity buffer), list / large-list arrays
(element field, offsets, child, validity) and map arrays (entries field,
offsets, entries struct, validity, `ordered` flag).  Validity buffers use the
arrow convention (`true` = valid). -/

inductive Arr where
  | prim (dt : ArrowDataType) (values : List (Option Int))
  | struct (fields : List ArrowField) (cols : List Arr) (nulls : Option (List Bool))
  | listA (field : ArrowField) (offsets : List Nat) (child : Arr) (nulls : Option (List Bool))
  | largeListA (field : ArrowField) (offsets : List Nat) (child : Arr) (nulls : Option (List Bool))
  | mapA (entries : ArrowField) (offsets : List Nat) (child : Arr) (nulls : Option (List Bool))
         (ordered : Bool)

/-- `Array::len`.  A struct array's length is its first column's length, else
its validity buffer's length (arrow derives it the same way). -/
def Arr.len : Arr → Nat
  | .prim _ values => values.length
  | .struct _ (c :: _) _ => c.len
  | .struct _ [] (some l) => l.length
  | .struct _ [] none => 0
  | .listA _ offsets _ _ => offsets.length - 1
  | .largeListA _ offsets _ _ => offsets.length - 1
  | .mapA _ offsets _ _ _ => offsets.length - 1

/-- `Array::data_type`. -/
def Arr.dataType : Arr → ArrowDataType
  | .prim dt _ => dt
  | .struct fields _ _ => .struct fields
  | .listA f _ _ _ => .list f
  | .largeListA f _ _ _ => .largeList f
  | .mapA f _ _ _ ordered => .map f ordered

/-- The array's own validity buffer (`Array::nulls`), as an optional bitmap.
A primitive array's buffer is identified with the someness of its values. -/
def Arr.nullsOf : Arr → Option (List Bool)
  | .prim _ values => some (values.map Option.isSome)
  | .struct _ _ nulls => nulls
  | .listA _ _ _ nulls => nulls
  | .largeListA _ _ _ nulls => nulls
  | .mapA _ _ _ nulls _ => nulls

/-- Effective per-row validity (absent buffer = all rows valid). -/
def Arr.validity (a : Arr) : List Bool :=
  match a.nullsOf with
  | some l => l
  | none => List.replicate a.len true

/-- `Array::null_count`. -/
def Arr.nullCount (a : Arr) : Nat :=
  match a.nullsOf with
  | some l => (l.filter (fun b => !b)).length
  | none => 0

/-- `Array::is_nullable` (arrow's default impl: `null_count() != 0`). -/
def Arr.isNullable (a : Arr) : Bool :=
  a.nullCount != 0

/-- `StructArray::fields` (on a struct array; `[]` for the unreachable
non-struct case, which the Rust types exclude). -/
def Arr.structFields : Arr → List ArrowField
  | .struct fields _ _ => fields
  | _ => []

mutual

/-- Full structural equality of arrow data types (`PartialEq` on `DataType`),
used by the arrow constructors' validation. -/
def ArrowDataType.beqFull : ArrowDataType → ArrowDataType → Bool
  | .int8, .int8 => true
  | .int16, .int16 => true
  | .int32, .int32 => true
  | .int64, .int64 => true
  | .float32, .float32 => true
  | .float64, .float64 => true
  | .boolean, .boolean => true
  | .utf8, .utf8 => true
  | .binary, .binary => true
  | .date32, .date32 => true
  | .timestampMicroUtc, .timestampMicroUtc => true
  | .timestampMicroNtz, .timestampMicroNtz => true
  | .decimal p s, .decimal p' s' => p == p' && s == s'
  | .struct fs, .struct fs' => ArrowField.beqList fs fs'
  | .list f, .list f' => ArrowField.beq f f'
  | .largeList f, .largeList f' => ArrowField.beq f f'
  | .listView f, .listView f' => ArrowField.beq f f'
  | .fixedSizeList f n, .fixedSizeList f' n' => ArrowField.beq f f' && n == n'
  | .map f s, .map f' s' => ArrowField.beq f f' && s == s'
  | _, _ => false

def ArrowField.beq : ArrowField → ArrowField → Bool
  | .mk n dt b, .mk n' dt' b' => n == n' && ArrowDataType.beqFull dt dt' && b == b'

def ArrowField.beqList : List ArrowField → List ArrowField → Bool
  | [], [] => true
  | f :: fs, f' :: fs' => ArrowField.beq f f' && ArrowField.beqList fs fs'
  | _, _ => false

end

/-! ## Arrow constructors and kernels used by the reorderer -/

mutual

/-- `new_null_array`: an all-null array of the given type and length.
Only the shapes reachable from kernel-synthesized field descriptors matter;
other arrow types fall back to an all-null primitive array. -/
def newNullArray (dt : ArrowDataType) (len : Nat) : Arr :=
  match dt with
  | .struct fields =>
      .struct fields (newNullCols fields len) (some (List.replicate len false))
  | .list (.mk fn fdt fb) =>
      .listA (.mk fn fdt fb) (List.replicate (len + 1) 0) (newNullArray fdt 0)
        (some (List.replicate len false))
  | .largeList (.mk fn fdt fb) =>
      .largeListA (.mk fn fdt fb) (List.replicate (len + 1) 0) (newNullArray fdt 0)
        (some (List.replicate len false))
  | .map (.mk fn fdt fb) sorted =>
      .mapA (.mk fn fdt fb) (List.replicate (len + 1) 0) (newNullArray fdt 0)
        (some (List.replicate len false)) sorted
  | dt => .prim dt (List.replicate len none)
termination_by sizeOf dt

def newNullCols (fields : List ArrowField) (len : Nat) : List Arr :=
  match fields with
  | [] => []
  | .mk _ fdt _ :: rest => newNullArray fdt len :: newNullCols rest len
termination_by sizeOf fields

end

/-- numeric arrow types, between which `cast` succeeds -/
def ArrowDataType.isNumeric : ArrowDataType → Bool
  | .int8 | .int16 | .int32 | .int64 | .float32 | .float64 => true
  | _ => false

/-- `crate::arrow::compute::cast`, restricted to the casts this code can
request: numeric-to-numeric primitive casts succeed (values preserved by
widening); a cast of a non-primitive array to a primitive target is a
`CastError`, as in arrow. -/
def arrowCast (a : Arr) (target : ArrowDataType) : Except KError Arr :=
  match a with
  | .prim dt values =>
      if ArrowDataType.beqFull dt target then .ok (.prim target values)
      else if dt.isNumeric && target.isNumeric then .ok (.prim target values)
      else .error (.arrowError "Cast error")
  | _ => .error (.arrowError "Cast error")

/-- offsets buffer validation shared by the list/map constructors -/
def offsetsMono : List Nat → Bool
  | [] => true
  | [_] => true
  | a :: b :: rest => a ≤ b && offsetsMono (b :: rest)

def offsetsOk (offsets : List Nat) (childLen : Nat) : Bool :=
  !offsets.isEmpty && offsetsMono offsets && offsets.getLastD 0 ≤ childLen

def nullsLenOk (nulls : Option (List Bool)) (len : Nat) : Bool :=
  match nulls with
  | some l => l.length == len
  | none => true

/-- `StructArray::try_new`: fields and columns must agree in count and type,
all columns and the validity buffer must share one length. -/
def structTryNew (fields : List ArrowField) (cols : List Arr)
    (nulls : Option (List Bool)) : Except KError Arr :=
  let n := Arr.len (.struct fields cols nulls)
  if fields.length == cols.length
     && (List.zip fields cols).all (fun fc => ArrowDataType.beqFull fc.2.dataType fc.1.dataType)
     && cols.all (fun c => c.len == n)
     && nullsLenOk nulls n then
    .ok (.struct fields cols nulls)
  else
    .error (.arrowError "Incorrect arguments to StructArray::try_new")

/-- `GenericListArray::try_new` (both offset widths). -/
def listTryNew (large : Bool) (field : ArrowField) (offsets : List Nat) (child : Arr)
    (nulls : Option (List Bool)) : Except KError Arr :=
  if ArrowDataType.beqFull child.dataType field.dataType
     && offsetsOk offsets child.len
     && nullsLenOk nulls (offsets.length - 1) then
    .ok (if large then .largeListA field offsets child nulls
         else .listA field offsets child nulls)
  else
    .error (.arrowError "Incorrect arguments to GenericListArray::try_new")

/-- `MapArray::try_new`: entries must be a two-column struct without nulls of
the declared entries type. -/
def mapTryNew (entriesField : ArrowField) (offsets : List Nat) (entries : Arr)
    (nulls : Option (List Bool)) (ordered : Bool) : Except KError Arr :=
  if ArrowDataType.beqFull entries.dataType entriesField.dataType
     && (match entries with | .struct _ cols _ => cols.length == 2 | _ => false)
     && entries.nullCount == 0
     && offsetsOk offsets entries.len
     && nullsLenOk nulls (offsets.length - 1) then
    .ok (.mapA entriesField offsets entries nulls ordered)
  else
    .error (.arrowError "Incorrect arguments to MapArray::try_new")

/-! ## `reorder_struct_array` and friends

`FieldArrayOpt` is the placeholder type for output slots.  Vector indexing
(`input_cols[i]`, `final_fields_cols[i] = ...`) panics in Rust when out of
bounds; those sites surface as `KError.panic`.  The non-struct arm of
`reorderStructArray` is unreachable in Rust (the argument *is* a
`StructArray`); it is likewise marked as a panic. -/

def FieldArrayOpt := Option (ArrowField × Arr)

/-- write `final_fields_cols[i] = v` (panics when `i` is out of bounds) -/
def setSlot (slots : List FieldArrayOpt) (i : Nat) (v : FieldArrayOpt) :
    Except KError (List FieldArrayOpt) :=
  if i < slots.length then .ok (slots.set i v)
  else .error (.panic "index out of bounds: final_fields_cols")

mutual

/-- `reorder_struct_array`: reorder a struct array to match
`requested_ordering`.  If no transform is needed the input is returned
unchanged; otherwise output slots are allocated and filled per plan node, and
the result is rebuilt with the input's own validity buffer. -/
def reorderStructArray (inputData : Arr) (requestedOrdering : List ReorderIndex) :
    Except KError Arr :=
  if !orderingNeedsTransform requestedOrdering then
    -- indices are already sorted: we requested the order the columns are stored in
    .ok inputData
  else
    match inputData with
    | .struct inputFields inputCols nullBuffer => do
        let numRows := Arr.len (.struct inputFields inputCols nullBuffer)
        let numCols := requestedOrdering.length
        let slots ← reorderLoop inputFields inputCols nullBuffer numRows 0
          requestedOrdering (List.replicate numCols none)
        let fieldArray := slots.filterMap id
        if fieldArray.length ≠ numCols then
          .error (.internalError "Found a None in final_fields_cols.")
        else
          structTryNew (fieldArray.map Prod.fst) (fieldArray.map Prod.snd) nullBuffer
    | _ => .error (.panic "reorder_struct_array input is a StructArray by type")
termination_by (sizeOf inputData, 1, 0)
decreasing_by
  all_goals simp_wf
  all_goals
    first
    | omega
    | (simp; omega)
    | (apply Prod.Lex.left; simp; omega)
    | (apply Prod.Lex.right; apply Prod.Lex.right; omega)
    | (apply Prod.Lex.right; apply Prod.Lex.left; omega)

/-- the `for (parquet_position, reorder_index) in requested_ordering.iter().enumerate()`
loop of `reorder_struct_array` -/
def reorderLoop (inputFields : List ArrowField) (inputCols : List Arr)
    (nullBuffer : Option (List Bool)) (numRows : Nat) (parquetPosition : Nat)
    (nodes : List ReorderIndex) (slots : List FieldArrayOpt) :
    Except KError (List FieldArrayOpt) :=
  match nodes with
  | [] => .ok slots
  | reorderIndex :: rest => do
      let slots' ←
        match reorderIndex.transform with
        | .cast target => do
            let col ← match inputCols.get? parquetPosition with
              | some c => .ok c
              | none => .error (.panic "index out of bounds: input_cols")
            let col ← arrowCast col target
            let inputField ← match inputFields.get? parquetPosition with
              | some f => .ok f
              | none => .error (.panic "index out of bounds: input_fields")
            let newField := ArrowField.mk inputField.name col.dataType inputField.nullable
            setSlot slots reorderIndex.index (some (newField, col))
        | .nested children => do
            let inputField ← match inputFields.get? parquetPosition with
              | some f => .ok f
              | none => .error (.panic "index out of bounds: input_fields")
            match hcol : inputCols.get? parquetPosition with
            | none => .error (.panic "index out of bounds: input_cols")
            | some col =>
              match col with
              | .struct sf sc sn => do
                  let resultArray ← reorderStructArray (.struct sf sc sn) children
                  -- create the new field specifying the correct order for the struct
                  let newField := ArrowField.mk inputField.name
                    (.struct resultArray.structFields) inputField.nullable
                  setSlot slots reorderIndex.index (some (newField, resultArray))
              | .listA lf loff lchild lnulls =>
                  do setSlot slots reorderIndex.index
                      (← reorderList false lf loff lchild lnulls inputField.name children)
              | .largeListA lf loff lchild lnulls =>
                  do setSlot slots reorderIndex.index
                      (← reorderList true lf loff lchild lnulls inputField.name children)
              | .mapA mf moff mchild mnulls mordered =>
                  do setSlot slots reorderIndex.index
                      (← reorderMap mf moff mchild mnulls mordered inputField.name children)
              | .prim _ _ =>
                  .error (.internalError "Nested reorder can only apply to struct/list/map.")
        | .identity => do
            let inputField ← match inputFields.get? parquetPosition with
              | some f => .ok f
              | none => .error (.panic "index out of bounds: input_fields")
            let col ← match inputCols.get? parquetPosition with
              | some c => .ok c
              | none => .error (.panic "index out of bounds: input_cols")
            setSlot slots reorderIndex.index (some (inputField, col))
        | .missing field => do
            let nullArray := newNullArray field.dataType numRows
            setSlot slots reorderIndex.index (some (field, nullArray))
      reorderLoop inputFields inputCols nullBuffer numRows (parquetPosition + 1) rest slots'
termination_by (sizeOf inputCols, 0, sizeOf nodes)
decreasing_by
  all_goals simp_wf
  all_goals
    first
    | omega
    | (simp; omega)
    | (apply Prod.Lex.right; apply Prod.Lex.right; omega)
    | (have hmem := List.sizeOf_lt_of_mem (List.get?_mem hcol)
       simp at hmem ⊢
       omega)
    | (have hmem := List.sizeOf_lt_of_mem (List.get?_mem hcol)
       apply Prod.Lex.left
       simp at hmem ⊢
       omega)

/-- `reorder_list` (both offset widths), on the parts of the list array. -/
def reorderList (large : Bool) (listField : ArrowField) (offsetBuffer : List Nat)
    (maybeSa : Arr) (nullBuf : Option (List Bool)) (inputFieldName : String)
    (children : List ReorderIndex) : Except KError FieldArrayOpt :=
  match maybeSa with
  | .struct sf sc sn => do
      let resultArray ← reorderStructArray (.struct sf sc sn) children
      let newListField := ArrowField.mk listField.name
        (.struct resultArray.structFields) resultArray.isNullable
      -- NB the source uses `Field::new_list` for both offset widths, so the
      -- rebuilt field always carries the `List` data type
      let newField := ArrowField.mk inputFieldName (.list newListField) listField.nullable
      let list ← listTryNew large newListField offsetBuffer resultArray nullBuf
      .ok (some (newField, list))
  | _ =>
      .error (.internalError "Nested reorder of list should have had struct child.")
termination_by (sizeOf maybeSa, 1, 1)

/-- `reorder_map`, on the parts of the map array. -/
def reorderMap (mapField : ArrowField) (offsetBuffer : List Nat) (structArray : Arr)
    (nullBuf : Option (List Bool)) (ordered : Bool) (inputFieldName : String)
    (children : List ReorderIndex) : Except KError FieldArrayOpt := do
  let resultArray ← reorderStructArray structArray children
  let resultFields := resultArray.structFields
  let newMapField := ArrowField.mk mapField.name
    (.struct resultFields) resultArray.isNullable
  let keyField ← match resultFields.get? 0 with
    | some f => .ok f
    | none => .error (.panic "index out of bounds: result_fields[0]")
  let valField ← match resultFields.get? 1 with
    | some f => .ok f
    | none => .error (.panic "index out of bounds: result_fields[1]")
  let newField := ArrowField.mk inputFieldName
    (.map (.mk mapField.name (.struct [keyField, valField]) false) ordered)
    mapField.nullable
  let map ← mapTryNew newMapField offsetBuffer resultArray nullBuf ordered
  .ok (some (newField, map))
termination_by (sizeOf structArray, 1, 1)

end

/-! ## Null-mask reconciliation: `fix_nested_null_masks` -/

/-- `NullBuffer::union`: pointwise AND of validity bits; an absent buffer is
the identity. -/
def nullBufferUnion : Option (List Bool) → Option (List Bool) → Option (List Bool)
  | none, none => none
  | some l, none => some l
  | none, some r => some r
  | some l, some r => some (List.zipWith and l r)

mutual

/-- `compute_nested_null_masks`: split the struct array, union in the parent
null mask, recurse into struct children with the new accumulator, and union
the accumulator into every non-struct child's own null buffer. -/
def computeNestedNullMasks (sa : Arr) (parentNulls : Option (List Bool)) : Arr :=
  match sa with
  | .struct fields columns nulls =>
      let nulls := nullBufferUnion parentNulls nulls
      .struct fields (cnnmColumns columns nulls) nulls
  | a => a  -- unreachable: the Rust argument is a StructArray by type
termination_by (sizeOf sa, 0)

def cnnmColumns (columns : List Arr) (nulls : Option (List Bool)) : List Arr :=
  match columns with
  | [] => []
  | c :: rest => cnnmChild c nulls :: cnnmColumns rest nulls
termination_by (sizeOf columns, 1)

/-- One column of the `columns.into_iter().map(...)` body: struct children
recurse; any other child gets the accumulated mask unioned into its own
null buffer, other buffers untouched. -/
def cnnmChild (column : Arr) (nulls : Option (List Bool)) : Arr :=
  match column with
  | .struct f cc n => computeNestedNullMasks (.struct f cc n) nulls
  | .prim dt values =>
      match nullBufferUnion nulls (some (values.map Option.isSome)) with
      | some v => .prim dt (List.zipWith (fun val keep => if keep then val else none) values v)
      | none => .prim dt values
  | .listA f off ch n => .listA f off ch (nullBufferUnion nulls n)
  | .largeListA f off ch n => .largeListA f off ch (nullBufferUnion nulls n)
  | .mapA f off ch n o => .mapA f off ch (nullBufferUnion nulls n) o
termination_by (sizeOf column, 2)

end

/-- `fix_nested_null_masks`. -/
def fixNestedNullMasks (batch : Arr) : Arr :=
  computeNestedNullMasks batch none

/-! ## Spec-side definition of "transform-free" (for claim C2)

Follows the specification's words: a plan is transform-free exactly when, in
plan order, every node is Identity or a Nested node whose own children are
transform-free, and target positions are strictly ascending across the
level. -/

mutual

def specNodeTransformFree : ReorderIndex → Bool
  | .mk _ .identity => true
  | .mk _ (.nested children) => specPlanTransformFree children
  | .mk _ (.cast _) => false
  | .mk _ (.missing _) => false

def specPlanTransformFree : List ReorderIndex → Bool
  | [] => true
  | [a] => specNodeTransformFree a
  | a :: b :: rest =>
      specNodeTransformFree a && decide (a.index < b.index) &&
        specPlanTransformFree (b :: rest)

end

/-! ## Batch well-formedness and nested-column access

`Arr.wf` captures the buffer-length consistency every real arrow array
enforces at construction (`NullBuffer::union` panics on a length mismatch):
a struct's columns and validity buffer share the struct's row count, and
list/map validity buffers match their offset count.  `descendStructs` walks a
path of child positions through struct levels, as the null-mask reconciliation
does. -/

def bufferLenOk (nulls : Option (List Bool)) (len : Nat) : Bool :=
  match nulls with
  | some l => l.length == len
  | none => true

mutual

def Arr.wf : Arr → Bool
  | .prim _ _ => true
  | .struct fields cols nulls =>
      bufferLenOk nulls (Arr.len (.struct fields cols nulls)) &&
        colsWf cols (Arr.len (.struct fields cols nulls))
  | .listA _ offsets _ nulls => bufferLenOk nulls (offsets.length - 1)
  | .largeListA _ offsets _ nulls => bufferLenOk nulls (offsets.length - 1)
  | .mapA _ offsets _ nulls _ => bufferLenOk nulls (offsets.length - 1)
termination_by a => (sizeOf a, 0)

def colsWf : List Arr → Nat → Bool
  | [], _ => true
  | c :: rest, n => (c.len == n && c.wf) && colsWf rest n
termination_by cols _ => (sizeOf cols, 1)

end

/-- Walk a path of child positions through struct levels (the final node may
be any column). -/
def descendStructs : Arr → List Nat → Option Arr
  | a, [] => some a
  | .struct _ cols _, i :: rest =>
      match cols[i]? with
      | some c => descendStructs c rest
      | none => none
  | _, _ :: _ => none

/-- Accumulated union of the struct-level validity buffers strictly above the
node reached by `path`, starting from accumulator `p` (left fold, exactly as
the reconciliation pass accumulates). -/
def ancestorMaskFrom (p : Option (List Bool)) : Arr → List Nat → Option (List Bool)
  | _, [] => p
  | .struct _ cols nulls, i :: rest =>
      match cols[i]? with
      | some c => ancestorMaskFrom (nullBufferUnion p nulls) c rest
      | none => none
  | _, _ :: _ => none

/-- Union of all ancestor struct-level validity buffers of the node at `path`. -/
def ancestorMask (a : Arr) (path : List Nat) : Option (List Bool) :=
  ancestorMaskFrom none a path

/-- Effective validity of row `i` (absent buffer or out-of-range index count
as valid). -/
def Arr.validAt (a : Arr) (i : Nat) : Bool :=
  match a.nullsOf with
  | none => true
  | some l => l.getD i true

/-! ## Concrete example data used by the claim theorems -/

/-- The spec's null-reconciliation example: 5 rows, parent struct own-nulls
[F,T,T,T,T] (validity [T,F,F,F,F]), child leaf own-nulls [F,F,F,T,T]. -/
def cNullExample : Arr :=
  .struct [.mk "child" .int32 true]
    [.prim .int32 [some 1, some 2, some 3, none, none]]
    (some [true, false, false, false, false])

/-- Expected reconciliation result: child nulls [F,T,T,T,T]. -/
def cNullExampleFixed : Arr :=
  .struct [.mk "child" .int32 true]
    [.prim .int32 [some 1, none, none, none, none]]
    (some [true, false, false, false, false])

/-- A batch with two identical columns carrying the same (duplicate) field. -/
def cDupBatch : Arr :=
  .struct [.mk "a" .int32 true, .mk "a" .int32 true]
    [.prim .int32 [some 3], .prim .int32 [some 3]]
    none

/-- A plan that swaps the two columns: it needs a transform (indices 1,0 are
out of order), yet reproduces `cDupBatch` exactly. -/
def cSwapPlan : List ReorderIndex :=
  [ReorderIndex.identity 1, ReorderIndex.identity 0]

/-- A two-column batch with distinct field names and a validity buffer. -/
def cNonDupBatch : Arr :=
  .struct [.mk "a" .int32 true, .mk "b" .int32 true]
    [.prim .int32 [some 1], .prim .int32 [some 2]]
    (some [true])

/-- Logical schema requesting a nullable array of LONG (claim C1's failing
input: type widening under a list). -/
def c1Requested : List KStructField :=
  [.mk "a" (.array .long true) true]

/-- Physical schema: the same field stored as a list of Int32. -/
def c1Parquet : List ArrowField :=
  [.mk "a" (.list (.mk "element" .int32 true)) true]

/-- A decoded batch matching `c1Parquet`. -/
def c1Batch : Arr :=
  .struct [.mk "a" (.list (.mk "element" .int32 true)) true]
    [.listA (.mk "element" .int32 true) [0, 2] (.prim .int32 [some 1, some 2]) none]
    none

/-- Logical schema for claim C8's counterexample: the single field `b`. -/
def c8Requested : List KStructField :=
  [.mk "b" .integer false]

/-- Physical schema containing an extra leading field `a`, so `b` is leaf 1. -/
def c8Parquet : List ArrowField :=
  [.mk "a" .int32 false, .mk "b" .int32 false]

/-! ## Predicates over planning inputs

`missingNodes` is the canonical list of Missing nodes the post-loop scan
produces for a given set of matched names, in logical declaration order.
`PlanningBad isBad` holds when the walk of `(requested, fields)` reaches — at
any nesting depth, through struct, list and map recursion exactly as
`get_indices` recurses — a physical field satisfying `isBad`. -/

def missingNodes (matched : List String) : Nat → List KStructField → List ReorderIndex
  | _, [] => []
  | i, f :: rest =>
      if f.name ∈ matched then missingNodes matched (i + 1) rest
      else ReorderIndex.missing i (toArrowField f) :: missingNodes matched (i + 1) rest

/-- A requested (matched) field of unshredded-variant type whose physical
representation fails `validate_parquet_variant`. -/
def badVariantField (req : List KStructField) (f : ArrowField) : Prop :=
  ∃ idx rf, getFull req f.name = some (idx, rf) ∧
    KDataType.beq rf.dataType unshreddedVariant = true ∧
    ∃ e, validateParquetVariant f = .error e

/-- A requested (matched) field of map type whose physical key/value entries
struct does not have exactly two children. -/
def badMapField (req : List KStructField) (f : ArrowField) : Prop :=
  ∃ idx rf kvn innerFields kvb srt kt vt vcn,
    getFull req f.name = some (idx, rf) ∧
    f.dataType = .map (.mk kvn (.struct innerFields) kvb) srt ∧
    rf.dataType = KDataType.map kt vt vcn ∧
    innerFields.length ≠ 2

inductive PlanningBad (isBad : List KStructField → ArrowField → Prop) :
    List KStructField → List ArrowField → Prop where
  | here {req : List KStructField} {f : ArrowField} {rest : List ArrowField} :
      isBad req f → PlanningBad isBad req (f :: rest)
  | tail {req : List KStructField} {f : ArrowField} {rest : List ArrowField} :
      PlanningBad isBad req rest → PlanningBad isBad req (f :: rest)
  | inStruct {req : List KStructField} {rest : List ArrowField} {n : String}
      {subfields : List ArrowField} {b : Bool} {idx : Nat} {rf : KStructField}
      {rsub : List KStructField} :
      getFull req n = some (idx, rf) →
      (rf.dataType = KDataType.struct rsub ∨ rf.dataType = KDataType.variant rsub) →
      PlanningBad isBad rsub subfields →
      PlanningBad isBad req (.mk n (.struct subfields) b :: rest)
  | inList {req : List KStructField} {rest : List ArrowField} {n : String}
      {lf : ArrowField} {b : Bool} {idx : Nat} {rf : KStructField} {elem : KDataType}
      {cn : Bool} (hdt : ArrowDataType) :
      getFull req n = some (idx, rf) →
      rf.dataType = KDataType.array elem cn →
      (hdt = ArrowDataType.list lf ∨ hdt = ArrowDataType.largeList lf ∨
        hdt = ArrowDataType.listView lf) →
      PlanningBad isBad [KStructField.mk lf.name elem cn] [lf] →
      PlanningBad isBad req (.mk n hdt b :: rest)
  | inMap {req : List KStructField} {rest : List ArrowField} {n kvn : String}
      {innerFields : List ArrowField} {kvb srt b : Bool} {idx : Nat} {rf : KStructField}
      {kt vt : KDataType} {vcn : Bool} {kn vn : String} :
      getFull req n = some (idx, rf) →
      rf.dataType = KDataType.map kt vt vcn →
      innerFields.map ArrowField.name = [kn, vn] →
      PlanningBad isBad (mapAsStructSchema kt vt vcn kn vn) innerFields →
      PlanningBad isBad req (.mk n (.map (.mk kvn (.struct innerFields) kvb) srt) b :: rest)

mutual

theorem needsTransform_eq_not_specNode : ∀ r : ReorderIndex,
    r.needsTransform = !specNodeTransformFree r
  | .mk _ .identity => by
      simp [ReorderIndex.needsTransform, specNodeTransformFree]
  | .mk _ (.cast _) => by
      simp [ReorderIndex.needsTransform, specNodeTransformFree]
  | .mk _ (.missing _) => by
      simp [ReorderIndex.needsTransform, specNodeTransformFree]
  | .mk _ (.nested children) => by
      have h := orderingNeedsTransform_eq_not_specPlan children
      simp [ReorderIndex.needsTransform, specNodeTransformFree, h]
termination_by r => sizeOf r

theorem orderingNeedsTransform_eq_not_specPlan : ∀ l : List ReorderIndex,
    orderingNeedsTransform l = !specPlanTransformFree l
  | [] => by simp [orderingNeedsTransform, specPlanTransformFree]
  | [a] => by
      have h := needsTransform_eq_not_specNode a
      simp [orderingNeedsTransform, orderingWindowsAny, specPlanTransformFree, h]
  | a :: b :: rest => by
      have ha := needsTransform_eq_not_specNode a
      have hrest := orderingNeedsTransform_eq_not_specPlan (b :: rest)
      have key : orderingNeedsTransform (a :: b :: rest)
          = (a.needsTransform || (decide (b.index ≤ a.index)
              || orderingNeedsTransform (b :: rest))) := by
        simp [orderingNeedsTransform, orderingWindowsAny, Bool.or_assoc]
      rw [key, ha, hrest]
      simp only [specPlanTransformFree]
      by_cases hio : a.index < b.index
      · have h1 : decide (b.index ≤ a.index) = false := by
          simp; omega
        simp [h1, hio, Bool.not_and]
      · have h1 : decide (b.index ≤ a.index) = true := by
          simp; omega
        simp [h1, hio]
termination_by l => sizeOf l

end

/-! ## Pointwise lemmas about validity buffers -/

theorem zipAnd_self (l : List Bool) : List.zipWith and l l = l := by
  induction l with
  | nil => simp
  | cons a rest ih => simp [ih]

theorem zipAnd_absorb (p n : List Bool) :
    List.zipWith and p (List.zipWith and p n) = List.zipWith and p n := by
  induction p generalizing n with
  | nil => simp
  | cons a rest ih =>
      cases n with
      | nil => simp
      | cons b m =>
          simp [ih]

theorem zipAnd_and_right (a pv : List Bool) :
    List.zipWith and (List.zipWith and a pv) pv = List.zipWith and a pv := by
  induction a generalizing pv with
  | nil => simp
  | cons x rest ih =>
      cases pv with
      | nil => simp
      | cons y m =>
          simp [ih]

theorem mask_self (values : List (Option Int)) :
    List.zipWith (fun val keep => if keep then val else none) values
      (values.map Option.isSome) = values := by
  induction values with
  | nil => simp
  | cons v rest ih =>
      simp [ih]
      cases v <;> simp

theorem isSome_mask (values : List (Option Int)) (v : List Bool) :
    (List.zipWith (fun val keep => if keep then val else none) values v).map Option.isSome
      = List.zipWith and v (values.map Option.isSome) := by
  induction values generalizing v with
  | nil => simp
  | cons x rest ih =>
      cases v with
      | nil => simp
      | cons k m =>
          simp [ih]
          cases k <;> simp

theorem mask_mask (values : List (Option Int)) (v : List Bool) :
    List.zipWith (fun val keep => if keep then val else none)
      (List.zipWith (fun val keep => if keep then val else none) values v) v
      = List.zipWith (fun val keep => if keep then val else none) values v := by
  induction values generalizing v with
  | nil => simp
  | cons x rest ih =>
      cases v with
      | nil => simp
      | cons k m =>
          simp [ih]
          cases k <;> simp

theorem union_none_left (n : Option (List Bool)) : nullBufferUnion none n = n := by
  cases n <;> rfl

theorem union_absorb (p n : Option (List Bool)) :
    nullBufferUnion p (nullBufferUnion p n) = nullBufferUnion p n := by
  cases p with
  | none => cases n <;> rfl
  | some a =>
      cases n with
      | none => simp [nullBufferUnion, zipAnd_self]
      | some b => simp [nullBufferUnion, zipAnd_absorb]

/-! ## Behaviour of the reconciliation pass on nested columns -/

theorem cnnmColumns_get (cols : List Arr) (n : Option (List Bool)) (i : Nat) :
    (cnnmColumns cols n)[i]? = cols[i]?.map (fun c => cnnmChild c n) := by
  induction cols generalizing i with
  | nil => simp [cnnmColumns]
  | cons c rest ih =>
      cases i with
      | zero => simp [cnnmColumns]
      | succ j => simpa [cnnmColumns] using ih j

theorem cnnmChild_nullsOf (c : Arr) (n : Option (List Bool)) :
    (cnnmChild c n).nullsOf = nullBufferUnion n c.nullsOf := by
  cases c with
  | prim dt values =>
      cases n with
      | none =>
          simp [cnnmChild, nullBufferUnion, Arr.nullsOf, isSome_mask, zipAnd_self]
      | some a =>
          simp [cnnmChild, nullBufferUnion, Arr.nullsOf, isSome_mask, zipAnd_and_right]
  | struct f cc nn =>
      simp [cnnmChild, computeNestedNullMasks, Arr.nullsOf]
  | listA f off ch nn => simp [cnnmChild, Arr.nullsOf]
  | largeListA f off ch nn => simp [cnnmChild, Arr.nullsOf]
  | mapA f off ch nn o => simp [cnnmChild, Arr.nullsOf]

/-- A struct child of a reconciled level is reconciled with the level's new
accumulator. -/
theorem cnnmChild_struct (f : List ArrowField) (cc : List Arr)
    (nn : Option (List Bool)) (n : Option (List Bool)) :
    cnnmChild (.struct f cc nn) n = computeNestedNullMasks (.struct f cc nn) n := by
  simp [cnnmChild]

/-- Master lemma: reconciliation rewrites the null buffer of every column
reachable through struct levels to the union of the accumulated ancestor
buffers with the column's own buffer (and touches nothing deeper than the
buffer in question, for non-struct columns). -/
theorem compute_descend : ∀ (path : List Nat) (a : Arr) (p : Option (List Bool)) (c : Arr),
    (p = none ∨ ∃ f cols nulls, a = .struct f cols nulls) →
    descendStructs a path = some c →
    ∃ c', descendStructs (computeNestedNullMasks a p) path = some c' ∧
      c'.nullsOf = nullBufferUnion (ancestorMaskFrom p a path) c.nullsOf
  | [], a, p, c, hp, h => by
      have hac : a = c := by simpa [descendStructs] using h
      subst hac
      rcases hp with rfl | ⟨f, cols, nulls, rfl⟩
      · refine ⟨computeNestedNullMasks a none, by simp [descendStructs], ?_⟩
        simp only [ancestorMaskFrom, union_none_left]
        cases a with
        | struct f cols nulls =>
            simp [computeNestedNullMasks, Arr.nullsOf, union_none_left]
        | prim dt values => simp [computeNestedNullMasks]
        | listA f off ch nn => simp [computeNestedNullMasks]
        | largeListA f off ch nn => simp [computeNestedNullMasks]
        | mapA f off ch nn o => simp [computeNestedNullMasks]
      · refine ⟨computeNestedNullMasks (.struct f cols nulls) p, by simp [descendStructs], ?_⟩
        simp [computeNestedNullMasks, Arr.nullsOf, ancestorMaskFrom]
  | i :: rest, a, p, c, hp, h => by
      cases a with
      | struct f cols nulls =>
          simp only [descendStructs] at h
          cases hci : cols[i]? with
          | none => simp [hci] at h
          | some ci =>
              rw [hci] at h
              have hstep : descendStructs (computeNestedNullMasks (.struct f cols nulls) p) (i :: rest)
                  = descendStructs (cnnmChild ci (nullBufferUnion p nulls)) rest := by
                simp [computeNestedNullMasks, descendStructs, cnnmColumns_get, hci]
              have hmask : ancestorMaskFrom p (.struct f cols nulls) (i :: rest)
                  = ancestorMaskFrom (nullBufferUnion p nulls) ci rest := by
                simp [ancestorMaskFrom, hci]
              cases rest with
              | nil =>
                  have hcic : ci = c := by simpa [descendStructs] using h
                  subst hcic
                  refine ⟨cnnmChild ci (nullBufferUnion p nulls), ?_, ?_⟩
                  · rw [hstep]; simp [descendStructs]
                  · rw [hmask]
                    simp [ancestorMaskFrom, cnnmChild_nullsOf]
              | cons j rest' =>
                  -- descending further requires the child to be a struct
                  cases ci with
                  | struct cf ccols cnulls =>
                      have ih := compute_descend (j :: rest') (.struct cf ccols cnulls)
                        (nullBufferUnion p nulls) c (Or.inr ⟨cf, ccols, cnulls, rfl⟩) h
                      rcases ih with ⟨c', hd, hn⟩
                      refine ⟨c', ?_, ?_⟩
                      · rw [hstep, cnnmChild_struct]; exact hd
                      · rw [hmask]; exact hn
                  | prim dt values => simp [descendStructs] at h
                  | listA lf loff lch lnn => simp [descendStructs] at h
                  | largeListA lf loff lch lnn => simp [descendStructs] at h
                  | mapA mf moff mch mnn mo => simp [descendStructs] at h
      | prim dt values => simp [descendStructs] at h
      | listA lf loff lch lnn => simp [descendStructs] at h
      | largeListA lf loff lch lnn => simp [descendStructs] at h
      | mapA mf moff mch mnn mo => simp [descendStructs] at h

/-! ## Idempotence of the reconciliation pass -/

mutual

theorem computeNestedNullMasks_idem : ∀ (sa : Arr) (p : Option (List Bool)),
    computeNestedNullMasks (computeNestedNullMasks sa p) p = computeNestedNullMasks sa p
  | .struct fields cols nulls, p => by
      have hcols := cnnmColumns_idem cols (nullBufferUnion p nulls)
      simp only [computeNestedNullMasks]
      rw [union_absorb, hcols]
  | .prim dt values, p => by simp [computeNestedNullMasks]
  | .listA f off ch nn, p => by simp [computeNestedNullMasks]
  | .largeListA f off ch nn, p => by simp [computeNestedNullMasks]
  | .mapA f off ch nn o, p => by simp [computeNestedNullMasks]
termination_by sa _ => (sizeOf sa, 0)

theorem cnnmColumns_idem : ∀ (cols : List Arr) (n : Option (List Bool)),
    cnnmColumns (cnnmColumns cols n) n = cnnmColumns cols n
  | [], n => by simp [cnnmColumns]
  | c :: rest, n => by
      simp only [cnnmColumns]
      rw [cnnmChild_idem c n, cnnmColumns_idem rest n]
termination_by cols _ => (sizeOf cols, 1)

theorem cnnmChild_idem : ∀ (c : Arr) (n : Option (List Bool)),
    cnnmChild (cnnmChild c n) n = cnnmChild c n
  | .struct f cc nn, n => by
      have h2 : computeNestedNullMasks (.struct f cc nn) n
          = .struct f (cnnmColumns cc (nullBufferUnion n nn)) (nullBufferUnion n nn) := by
        simp [computeNestedNullMasks]
      rw [cnnmChild_struct, h2, cnnmChild_struct, ← h2]
      exact computeNestedNullMasks_idem (.struct f cc nn) n
  | .prim dt values, n => by
      cases n with
      | none =>
          have h : ∀ w : List (Option Int), cnnmChild (.prim dt w) none = .prim dt w := by
            intro w
            simp [cnnmChild, nullBufferUnion, mask_self]
          rw [h, h]
      | some a =>
          simp [cnnmChild, nullBufferUnion, isSome_mask, zipAnd_and_right, zipAnd_absorb,
            mask_mask]
  | .listA f off ch nn, n => by simp [cnnmChild, union_absorb]
  | .largeListA f off ch nn, n => by simp [cnnmChild, union_absorb]
  | .mapA f off ch nn o, n => by simp [cnnmChild, union_absorb]
termination_by c _ => (sizeOf c, 2)

end

/-! ## Length bookkeeping under `Arr.wf` -/

theorem colsWf_get : ∀ (cols : List Arr) (n : Nat) (i : Nat) (c : Arr),
    colsWf cols n = true → cols[i]? = some c → c.len = n ∧ c.wf = true
  | [], _, i, c, _, h => by simp at h
  | x :: rest, n, 0, c, hwf, h => by
      simp at h
      subst h
      simp [colsWf] at hwf
      exact ⟨by simpa using hwf.1.1, hwf.1.2⟩
  | x :: rest, n, i + 1, c, hwf, h => by
      simp at h
      simp [colsWf] at hwf
      exact colsWf_get rest n i c hwf.2 h

theorem wf_descend : ∀ (path : List Nat) (a c : Arr),
    a.wf = true → descendStructs a path = some c → c.wf = true ∧ c.len = a.len
  | [], a, c, hwf, h => by
      have : a = c := by simpa [descendStructs] using h
      subst this
      exact ⟨hwf, rfl⟩
  | i :: rest, a, c, hwf, h => by
      cases a with
      | struct f cols nulls =>
          simp only [descendStructs] at h
          cases hci : cols[i]? with
          | none => simp [hci] at h
          | some ci =>
              rw [hci] at h
              have hw : colsWf cols (Arr.len (.struct f cols nulls)) = true := by
                simp [Arr.wf] at hwf
                exact hwf.2
              have hc := colsWf_get cols _ i ci hw hci
              have ih := wf_descend rest ci c hc.2 h
              exact ⟨ih.1, by rw [ih.2, hc.1]⟩
      | prim dt values => simp [descendStructs] at h
      | listA lf loff lch lnn => simp [descendStructs] at h
      | largeListA lf loff lch lnn => simp [descendStructs] at h
      | mapA mf moff mch mnn mo => simp [descendStructs] at h

theorem union_length (x y : Option (List Bool)) (n : Nat)
    (hx : ∀ l, x = some l → l.length = n) (hy : ∀ l, y = some l → l.length = n) :
    ∀ l, nullBufferUnion x y = some l → l.length = n := by
  intro l h
  cases x with
  | none =>
      cases y with
      | none => simp [nullBufferUnion] at h
      | some b => simp [nullBufferUnion] at h; subst h; exact hy _ rfl
  | some a =>
      cases y with
      | none => simp [nullBufferUnion] at h; subst h; exact hx _ rfl
      | some b =>
          simp [nullBufferUnion] at h
          subst h
          simp [List.length_zipWith, hx a rfl, hy b rfl]

theorem nullsOf_length_of_wf (c : Arr) (hwf : c.wf = true) :
    ∀ l, c.nullsOf = some l → l.length = c.len := by
  intro l h
  cases c with
  | prim dt values =>
      simp [Arr.nullsOf] at h
      subst h
      simp [Arr.len]
  | struct f cols nulls =>
      simp [Arr.nullsOf] at h
      subst h
      simp [Arr.wf, bufferLenOk] at hwf
      exact hwf.1
  | listA lf loff lch lnn =>
      simp [Arr.nullsOf] at h
      subst h
      simp [Arr.wf, bufferLenOk] at hwf
      simpa [Arr.len] using hwf
  | largeListA lf loff lch lnn =>
      simp [Arr.nullsOf] at h
      subst h
      simp [Arr.wf, bufferLenOk] at hwf
      simpa [Arr.len] using hwf
  | mapA mf moff mch mnn mo =>
      simp [Arr.nullsOf] at h
      subst h
      simp [Arr.wf, bufferLenOk] at hwf
      simpa [Arr.len] using hwf

theorem ancestorMaskFrom_length : ∀ (path : List Nat) (a c : Arr) (p : Option (List Bool)),
    a.wf = true → descendStructs a path = some c →
    (∀ l, p = some l → l.length = a.len) →
    ∀ l, ancestorMaskFrom p a path = some l → l.length = a.len
  | [], a, c, p, _, _, hp => by
      intro l h
      simp [ancestorMaskFrom] at h
      exact hp l h
  | i :: rest, a, c, p, hwf, h, hp => by
      cases a with
      | struct f cols nulls =>
          simp only [descendStructs] at h
          cases hci : cols[i]? with
          | none => simp [hci] at h
          | some ci =>
              rw [hci] at h
              intro l hl
              simp only [ancestorMaskFrom, hci] at hl
              have hw : colsWf cols (Arr.len (.struct f cols nulls)) = true := by
                simp [Arr.wf] at hwf
                exact hwf.2
              have hc := colsWf_get cols _ i ci hw hci
              have hnl : ∀ l, nulls = some l → l.length = Arr.len (.struct f cols nulls) := by
                intro l h
                subst h
                simp [Arr.wf, bufferLenOk] at hwf
                exact hwf.1
              have hun : ∀ l, nullBufferUnion p nulls = some l →
                  l.length = Arr.len (.struct f cols nulls) :=
                union_length p nulls _ hp hnl
              have := ancestorMaskFrom_length rest ci c (nullBufferUnion p nulls) hc.2 h
                (by rw [hc.1]; exact hun) l hl
              rw [this, hc.1]
      | prim dt values => simp [descendStructs] at h
      | listA lf loff lch lnn => simp [descendStructs] at h
      | largeListA lf loff lch lnn => simp [descendStructs] at h
      | mapA mf moff mch mnn mo => simp [descendStructs] at h

theorem zipAnd_getD_true (a l : List Bool) (i : Nat) (hlen : a.length = l.length)
    (h : (List.zipWith and a l).getD i true = true) : l.getD i true = true := by
  induction a generalizing l i with
  | nil =>
      cases l with
      | nil => simpa using h
      | cons y l2 => simp at hlen
  | cons x a2 ih =>
      cases l with
      | nil => simp at hlen
      | cons y l2 =>
          cases i with
          | zero =>
              simp [List.getD] at h ⊢
              exact h.2
          | succ j =>
              simp [List.getD] at h ⊢
              simp at hlen
              have := ih l2 j hlen (by simpa [List.getD] using h)
              simpa [List.getD] using this

/-- **C6.** After null-mask reconciliation, the null bitmap of every column
reachable through struct levels equals the bitwise union of its own original
bitmap with the bitmaps of all its ancestor struct levels; on the spec's
5-row example (parent struct own-nulls [F,T,T,T,T], child leaf own-nulls
[F,F,F,T,T]) the reconciled child nulls are [F,T,T,T,T]. -/
theorem c6_reconciled_bitmap_is_ancestor_union :
    (∀ (b : Arr) (path : List Nat) (c : Arr),
        descendStructs b path = some c →
        ∃ c', descendStructs (fixNestedNullMasks b) path = some c' ∧
          c'.nullsOf = nullBufferUnion (ancestorMask b path) c.nullsOf) ∧
    fixNestedNullMasks cNullExample = cNullExampleFixed := by
  constructor
  · intro b path c h
    have := compute_descend path b none c (Or.inl rfl) h
    simpa [fixNestedNullMasks, ancestorMask] using this
  · simp only [fixNestedNullMasks, cNullExample, cNullExampleFixed, computeNestedNullMasks,
      cnnmColumns, cnnmChild, nullBufferUnion, List.map, Option.isSome, List.zipWith]
    norm_num

/-- Witness for C6 at the example batch: path [0] reaches the leaf, and the
theorem yields its reconciled bitmap. -/
theorem c6_reconciled_bitmap_is_ancestor_union_witness :
    descendStructs cNullExample [0]
      = some (.prim .int32 [some 1, some 2, some 3, none, none]) ∧
    (∃ c', descendStructs (fixNestedNullMasks cNullExample) [0] = some c' ∧
      c'.nullsOf = nullBufferUnion (ancestorMask cNullExample [0])
        (Arr.prim .int32 [some 1, some 2, some 3, none, none]).nullsOf) := by
  constructor
  · simp [descendStructs, cNullExample]
  · exact c6_reconciled_bitmap_is_ancestor_union.1 cNullExample [0] _
      (by simp [descendStructs, cNullExample])

/-- **C7.** Null-mask reconciliation is idempotent on every batch, and
monotonic: a row read as NULL before reconciliation is still NULL afterwards,
in every column reachable through struct levels (batches are well-formed:
buffer lengths agree, which every arrow constructor enforces). -/
theorem c7_fix_idempotent_and_monotonic :
    (∀ b : Arr, fixNestedNullMasks (fixNestedNullMasks b) = fixNestedNullMasks b) ∧
    (∀ (b : Arr) (path : List Nat) (c c' : Arr) (i : Nat),
        b.wf = true →
        descendStructs b path = some c →
        descendStructs (fixNestedNullMasks b) path = some c' →
        c'.validAt i = true → c.validAt i = true) := by
  constructor
  · intro b
    simpa [fixNestedNullMasks] using computeNestedNullMasks_idem b none
  · intro b path c c' i hwf hc hc' hv
    obtain ⟨c'', hd, hn⟩ := compute_descend path b none c (Or.inl rfl) hc
    have hd' : descendStructs (fixNestedNullMasks b) path = some c'' := by
      simpa [fixNestedNullMasks] using hd
    have hcc : c' = c'' := by
      rw [hc'] at hd'
      exact Option.some.inj hd'
    subst hcc
    cases hm : ancestorMask b path with
    | none =>
        rw [show ancestorMaskFrom none b path = ancestorMask b path from rfl, hm,
          union_none_left] at hn
        simpa [Arr.validAt, hn] using hv
    | some a =>
        rw [show ancestorMaskFrom none b path = ancestorMask b path from rfl, hm] at hn
        cases hcn : c.nullsOf with
        | none => simp [Arr.validAt, hcn]
        | some l =>
            rw [hcn] at hn
            simp only [nullBufferUnion] at hn
            have hwfc := wf_descend path b c hwf hc
            have hal : a.length = b.len :=
              ancestorMaskFrom_length path b c none hwf hc (by intro l h; simp at h) a hm
            have hll : l.length = c.len := nullsOf_length_of_wf c hwfc.1 l hcn
            have hlen : a.length = l.length := by rw [hal, hll, hwfc.2]
            simp only [Arr.validAt, hn, hcn] at hv ⊢
            exact zipAnd_getD_true a l i hlen hv

/-- Witness for C7: idempotence on zero-column and zero-row batches, and
monotonicity applied at the example batch. -/
theorem c7_fix_idempotent_and_monotonic_witness :
    fixNestedNullMasks (fixNestedNullMasks (Arr.struct [] [] none))
      = fixNestedNullMasks (Arr.struct [] [] none) ∧
    fixNestedNullMasks (fixNestedNullMasks
        (Arr.struct [.mk "e" .int32 true] [.prim .int32 []] none))
      = fixNestedNullMasks (Arr.struct [.mk "e" .int32 true] [.prim .int32 []] none) ∧
    (Arr.prim .int32 [some 1, some 2, some 3, none, none]).validAt 0 = true := by
  refine ⟨c7_fix_idempotent_and_monotonic.1 _, c7_fix_idempotent_and_monotonic.1 _, ?_⟩
  refine c7_fix_idempotent_and_monotonic.2 cNullExample [0] _
    (.prim .int32 [some 1, none, none, none, none]) 0 ?_ ?_ ?_ ?_
  · simp [Arr.wf, cNullExample, colsWf, Arr.len, bufferLenOk]
  · simp [descendStructs, cNullExample]
  · simp only [fixNestedNullMasks, cNullExample, computeNestedNullMasks,
      cnnmColumns, cnnmChild, nullBufferUnion, List.map, Option.isSome, List.zipWith]
    norm_num [descendStructs]
  · simp [Arr.validAt, Arr.nullsOf]

/-! ## Claim C2: the transform-free characterization and the fast path -/

/-- **C2 (amended).** A plan needs a transform exactly when it fails the
recursive transform-free definition (in plan order, every node Identity or a
Nested node with transform-free children, and target positions strictly
ascending); and `reorder_struct_array` returns its input batch unchanged
whenever the plan is transform-free.  (The converse of the last part is not
true of the code: a transform-needing plan can reproduce its input, see the
counterexample.) -/
theorem c2_needs_transform_characterization :
    (∀ plan : List ReorderIndex,
        orderingNeedsTransform plan = false ↔ specPlanTransformFree plan = true) ∧
    (∀ (batch : Arr) (plan : List ReorderIndex),
        specPlanTransformFree plan = true → reorderStructArray batch plan = .ok batch) := by
  constructor
  · intro plan
    rw [orderingNeedsTransform_eq_not_specPlan]
    cases specPlanTransformFree plan <;> simp
  · intro batch plan h
    have hf : orderingNeedsTransform plan = false := by
      rw [orderingNeedsTransform_eq_not_specPlan, h]
      rfl
    rw [reorderStructArray.eq_def]
    simp [hf]

/-- Witness for C2: a two-node identity plan is transform-free and the
reorderer returns the batch unchanged. -/
theorem c2_needs_transform_characterization_witness :
    specPlanTransformFree [ReorderIndex.identity 0, ReorderIndex.identity 1] = true ∧
    reorderStructArray cDupBatch [ReorderIndex.identity 0, ReorderIndex.identity 1]
      = .ok cDupBatch := by
  have hs : specPlanTransformFree [ReorderIndex.identity 0, ReorderIndex.identity 1]
      = true := by
    simp [specPlanTransformFree, specNodeTransformFree, ReorderIndex.identity,
      ReorderIndex.index]
  exact ⟨hs, c2_needs_transform_characterization.2 cDupBatch _ hs⟩

set_option maxHeartbeats 1600000 in
/-- Counterexample to C2 as stated: swapping two identical duplicate columns
reproduces the input batch exactly although the plan needs a transform, so
"returns its input batch unchanged exactly when the plan is transform-free"
fails in the only-if direction. -/
theorem c2_counterexample_unchanged_yet_needs_transform :
    reorderStructArray cDupBatch cSwapPlan = .ok cDupBatch ∧
    orderingNeedsTransform cSwapPlan = true := by
  constructor
  · simp only [reorderStructArray, reorderLoop, cSwapPlan, cDupBatch, ReorderIndex.identity,
      ReorderIndex.index, ReorderIndex.transform, orderingNeedsTransform, orderingWindowsAny,
      ReorderIndex.needsTransform, setSlot, structTryNew, Arr.len, Arr.dataType,
      ArrowDataType.beqFull, nullsLenOk, bind, Except.bind, List.get?, List.replicate,
      List.set, List.filterMap, List.length, List.zip, List.zipWith, List.all, List.map,
      Option.isSome]
    simp [ArrowDataType.beqFull, Arr.len, Arr.dataType, ArrowField.dataType,
      List.filterMap_cons]
  · simp [cSwapPlan, orderingNeedsTransform, orderingWindowsAny, ReorderIndex.needsTransform,
      ReorderIndex.identity, ReorderIndex.index]

/-! ## Claim C10: the empty requested schema -/

set_option maxHeartbeats 2000000 in
theorem giLoop_nil_requested : ∀ (fields : List ArrowField) (st : GiState),
    ∃ pi po, giLoop [] st fields = .ok ⟨pi, po, st.found, st.reorders, st.mask⟩
  | [], st => ⟨st.parquetIndex, st.parquetOffset, by simp [giLoop]⟩
  | f :: rest, st => by
      cases f with
      | mk n dt b =>
          have hstep : giStep [] st (.mk n dt b)
              = .ok ⟨st.parquetIndex + 1, st.parquetOffset + (countCols (.mk n dt b) - 1),
                     st.found, st.reorders, st.mask⟩ := by
            rw [giStep.eq_def]
            simp [getFull, getFull.go]
          obtain ⟨pi, po, h⟩ := giLoop_nil_requested rest
            ⟨st.parquetIndex + 1, st.parquetOffset + (countCols (.mk n dt b) - 1),
             st.found, st.reorders, st.mask⟩
          exact ⟨pi, po, by simp [giLoop, hstep, bind, Except.bind, h]⟩

/-- **C10.** For every physical schema, planning with an empty logical schema
succeeds with an empty projection-index list and an empty reorder plan (it
never errors on unrequested fields); the empty plan needs no transform and
reordering under it returns any batch unchanged. -/
theorem c10_empty_requested_schema (parquetSchema : List ArrowField) :
    (∃ advance, getIndices 0 [] parquetSchema = .ok (advance, [], [])) ∧
    getRequestedIndices [] parquetSchema = .ok ([], []) ∧
    orderingNeedsTransform [] = false ∧
    ∀ batch : Arr, reorderStructArray batch [] = .ok batch := by
  obtain ⟨pi, po, h⟩ := giLoop_nil_requested parquetSchema ⟨0, 0, [], [], []⟩
  have hgi : getIndices 0 [] parquetSchema = .ok (po + pi - 0, [], []) := by
    rw [getIndices.eq_def]
    simp [h, bind, Except.bind]
  refine ⟨⟨po + pi - 0, hgi⟩, ?_, by simp [orderingNeedsTransform], ?_⟩
  · simp [getRequestedIndices, hgi, bind, Except.bind]
  · intro batch
    rw [reorderStructArray.eq_def]
    simp [orderingNeedsTransform]

/-! ## Claim C9: container buffers pass through the reorderer unchanged -/

theorem structTryNew_ok {f : List ArrowField} {c : List Arr} {n : Option (List Bool)}
    {out : Arr} (h : structTryNew f c n = .ok out) : out = .struct f c n := by
  simp only [structTryNew] at h
  split at h
  · exact (Except.ok.inj h).symm
  · simp at h

theorem listTryNew_ok {large : Bool} {fld : ArrowField} {off : List Nat} {ch : Arr}
    {n : Option (List Bool)} {out : Arr} (h : listTryNew large fld off ch n = .ok out) :
    out = if large then Arr.largeListA fld off ch n else Arr.listA fld off ch n := by
  simp only [listTryNew] at h
  split at h
  · exact (Except.ok.inj h).symm
  · simp at h

theorem mapTryNew_ok {fld : ArrowField} {off : List Nat} {entries : Arr}
    {n : Option (List Bool)} {ordered : Bool} {out : Arr}
    (h : mapTryNew fld off entries n ordered = .ok out) :
    out = Arr.mapA fld off entries n ordered := by
  simp only [mapTryNew] at h
  split at h
  · exact (Except.ok.inj h).symm
  · simp at h

/-- The reorderer passes the level's own validity buffer through unchanged. -/
theorem reorder_preserves_container_nulls (input : Arr) (plan : List ReorderIndex)
    (out : Arr) (h : reorderStructArray input plan = .ok out) :
    out.nullsOf = input.nullsOf := by
  cases hn : orderingNeedsTransform plan with
  | false =>
      rw [reorderStructArray.eq_def, hn] at h
      simp at h
      rw [← h]
  | true =>
      rw [reorderStructArray.eq_def, hn] at h
      simp only [Bool.not_true] at h
      rw [if_neg (show ¬ ((false : Bool) = true) by simp)] at h
      cases input with
      | struct infs incols nb =>
          simp only at h
          cases hsl : reorderLoop infs incols nb (Arr.len (.struct infs incols nb)) 0 plan
              (List.replicate plan.length none) with
          | error e => rw [hsl] at h; simp [bind, Except.bind] at h
          | ok slots =>
              rw [hsl] at h
              simp only [bind, Except.bind] at h
              split at h
              · simp at h
              · have hout := structTryNew_ok h
                rw [hout]
                simp [Arr.nullsOf]
      | prim dt v => simp at h
      | listA a b c d => simp at h
      | largeListA a b c d => simp at h
      | mapA a b c d e => simp at h

/-- `reorder_list` keeps the offsets buffer and the validity buffer of the
list container unchanged. -/
theorem reorderList_preserves (large : Bool) (lf : ArrowField) (loff : List Nat)
    (lch : Arr) (lnulls : Option (List Bool)) (name : String)
    (children : List ReorderIndex) (f : ArrowField) (out : Arr)
    (h : reorderList large lf loff lch lnulls name children = .ok (some (f, out))) :
    ∃ nf ch, out = if large then Arr.largeListA nf loff ch lnulls
                   else Arr.listA nf loff ch lnulls := by
  rw [reorderList.eq_def] at h
  cases lch with
  | struct sf sc sn =>
      simp only at h
      cases hre : reorderStructArray (.struct sf sc sn) children with
      | error e => rw [hre] at h; simp [bind, Except.bind] at h
      | ok result =>
          rw [hre] at h
          simp only [bind, Except.bind] at h
          cases hl : listTryNew large
              (.mk lf.name (.struct result.structFields) result.isNullable)
              loff result lnulls with
          | error e => rw [hl] at h; simp at h
          | ok lst =>
              rw [hl] at h
              simp only [Except.ok.injEq] at h
              injection h with hp
              have hout : out = lst := (congrArg Prod.snd hp).symm
              refine ⟨.mk lf.name (.struct result.structFields) result.isNullable,
                result, ?_⟩
              rw [hout]
              exact listTryNew_ok hl
  | prim dt v => simp at h
  | listA a b c d => simp at h
  | largeListA a b c d => simp at h
  | mapA a b c d e => simp at h

/-- `reorder_map` keeps the offsets buffer, the validity buffer and the
`ordered` flag of the map container unchanged. -/
theorem reorderMap_preserves (mf : ArrowField) (moff : List Nat) (mch : Arr)
    (mnulls : Option (List Bool)) (ordered : Bool) (name : String)
    (children : List ReorderIndex) (f : ArrowField) (out : Arr)
    (h : reorderMap mf moff mch mnulls ordered name children = .ok (some (f, out))) :
    ∃ nf entries, out = Arr.mapA nf moff entries mnulls ordered := by
  rw [reorderMap.eq_def] at h
  cases hre : reorderStructArray mch children with
  | error e => rw [hre] at h; simp [bind, Except.bind] at h
  | ok result =>
      rw [hre] at h
      simp only [bind, Except.bind] at h
      cases hk : result.structFields.get? 0 with
      | none => rw [hk] at h; simp at h
      | some keyField =>
          rw [hk] at h
          simp only at h
          cases hv : result.structFields.get? 1 with
          | none => rw [hv] at h; simp at h
          | some valField =>
              rw [hv] at h
              simp only at h
              cases hm : mapTryNew (.mk mf.name (.struct result.structFields) result.isNullable)
                  moff result mnulls ordered with
              | error e => rw [hm] at h; simp at h
              | ok mp =>
                  rw [hm] at h
                  simp only [Except.ok.injEq] at h
                  injection h with hp
                  have hout : out = mp := (congrArg Prod.snd hp).symm
                  refine ⟨.mk mf.name (.struct result.structFields) result.isNullable,
                    result, ?_⟩
                  rw [hout]
                  exact mapTryNew_ok hm

/-- **C9.** For every struct, list or map level the reorderer reshapes, the
container's own validity buffer — and for lists the offsets buffer, and for
maps also the ordering flag — passes through to the output unchanged. -/
theorem c9_container_buffers_pass_through :
    (∀ (input : Arr) (plan : List ReorderIndex) (out : Arr),
        reorderStructArray input plan = .ok out → out.nullsOf = input.nullsOf) ∧
    (∀ (large : Bool) (lf : ArrowField) (loff : List Nat) (lch : Arr)
        (lnulls : Option (List Bool)) (name : String) (children : List ReorderIndex)
        (f : ArrowField) (out : Arr),
        reorderList large lf loff lch lnulls name children = .ok (some (f, out)) →
        ∃ nf ch, out = if large then Arr.largeListA nf loff ch lnulls
                       else Arr.listA nf loff ch lnulls) ∧
    (∀ (mf : ArrowField) (moff : List Nat) (mch : Arr) (mnulls : Option (List Bool))
        (ordered : Bool) (name : String) (children : List ReorderIndex)
        (f : ArrowField) (out : Arr),
        reorderMap mf moff mch mnulls ordered name children = .ok (some (f, out)) →
        ∃ nf entries, out = Arr.mapA nf moff entries mnulls ordered) :=
  ⟨reorder_preserves_container_nulls, reorderList_preserves, reorderMap_preserves⟩

set_option maxHeartbeats 1600000 in
/-- Witness for C9: concrete reorders of a struct batch, a list column and a
map column, with the preserved buffers read off via the theorem. -/
theorem c9_container_buffers_pass_through_witness :
    (∃ out, reorderStructArray cNonDupBatch cSwapPlan = .ok out ∧
        out.nullsOf = cNonDupBatch.nullsOf) ∧
    (∃ f out nf ch,
        reorderList false (ArrowField.mk "item"
            (.struct [.mk "x" .int32 false, .mk "y" .int32 false]) false) [0, 2]
          (.struct [.mk "x" .int32 false, .mk "y" .int32 false]
            [.prim .int32 [some 1, some 2], .prim .int32 [some 3, some 4]] none)
          (some [true]) "l" [ReorderIndex.identity 1, ReorderIndex.identity 0]
          = .ok (some (f, out)) ∧
        out = Arr.listA nf [0, 2] ch (some [true])) ∧
    (∃ f out nf entries,
        reorderMap (ArrowField.mk "entries"
            (.struct [.mk "k" .int32 false, .mk "v" .int32 false]) false) [0, 2]
          (.struct [.mk "k" .int32 false, .mk "v" .int32 false]
            [.prim .int32 [some 1, some 2], .prim .int32 [some 5, some 6]] none)
          (some [true]) false "m" [ReorderIndex.identity 1, ReorderIndex.identity 0]
          = .ok (some (f, out)) ∧
        out = Arr.mapA nf [0, 2] entries (some [true]) false) := by
  refine ⟨?_, ?_, ?_⟩
  · have h1 : reorderStructArray cNonDupBatch cSwapPlan
        = .ok (Arr.struct [.mk "b" .int32 true, .mk "a" .int32 true]
            [.prim .int32 [some 2], .prim .int32 [some 1]] (some [true])) := by
      simp only [reorderStructArray, reorderLoop, cSwapPlan, cNonDupBatch,
        ReorderIndex.identity, ReorderIndex.index, ReorderIndex.transform,
        orderingNeedsTransform, orderingWindowsAny, ReorderIndex.needsTransform, setSlot,
        structTryNew, Arr.len, Arr.dataType, ArrowDataType.beqFull, nullsLenOk, bind,
        Except.bind, List.get?, List.replicate, List.set, List.filterMap, List.length,
        List.zip, List.zipWith, List.all, List.map, Option.isSome]
      simp [ArrowDataType.beqFull, Arr.len, Arr.dataType, ArrowField.dataType,
        List.filterMap_cons]
    exact ⟨_, h1, c9_container_buffers_pass_through.1 _ _ _ h1⟩
  · have h2 : reorderList false (ArrowField.mk "item"
          (.struct [.mk "x" .int32 false, .mk "y" .int32 false]) false) [0, 2]
        (.struct [.mk "x" .int32 false, .mk "y" .int32 false]
          [.prim .int32 [some 1, some 2], .prim .int32 [some 3, some 4]] none)
        (some [true]) "l" [ReorderIndex.identity 1, ReorderIndex.identity 0]
        = .ok (some (ArrowField.mk "l"
            (.list (.mk "item" (.struct [.mk "y" .int32 false, .mk "x" .int32 false]) false))
            false,
          Arr.listA (.mk "item" (.struct [.mk "y" .int32 false, .mk "x" .int32 false]) false)
            [0, 2]
            (.struct [.mk "y" .int32 false, .mk "x" .int32 false]
              [.prim .int32 [some 3, some 4], .prim .int32 [some 1, some 2]] none)
            (some [true]))) := by
      simp only [reorderList, reorderStructArray, reorderLoop, ReorderIndex.identity,
        ReorderIndex.index, ReorderIndex.transform, orderingNeedsTransform,
        orderingWindowsAny, ReorderIndex.needsTransform, setSlot, structTryNew, listTryNew,
        offsetsOk, offsetsMono, Arr.len, Arr.dataType, Arr.structFields, Arr.isNullable,
        Arr.nullCount, Arr.nullsOf, ArrowField.name, ArrowField.nullable,
        ArrowDataType.beqFull, ArrowField.beq, ArrowField.beqList, nullsLenOk, bind,
        Except.bind, List.get?, List.replicate, List.set, List.filterMap, List.length,
        List.zip, List.zipWith, List.all, List.map, Option.isSome]
      simp [ArrowDataType.beqFull, ArrowField.beq, ArrowField.beqList, Arr.len, Arr.dataType,
        ArrowField.dataType, ArrowField.name, List.filterMap_cons, offsetsOk, offsetsMono,
        List.getLastD]
    obtain ⟨nf, ch, hout⟩ := c9_container_buffers_pass_through.2.1 _ _ _ _ _ _ _ _ _ h2
    exact ⟨_, _, nf, ch, h2, by simpa using hout⟩
  · have h3 : reorderMap (ArrowField.mk "entries"
          (.struct [.mk "k" .int32 false, .mk "v" .int32 false]) false) [0, 2]
        (.struct [.mk "k" .int32 false, .mk "v" .int32 false]
          [.prim .int32 [some 1, some 2], .prim .int32 [some 5, some 6]] none)
        (some [true]) false "m" [ReorderIndex.identity 1, ReorderIndex.identity 0]
        = .ok (some (ArrowField.mk "m"
            (.map (.mk "entries" (.struct [.mk "v" .int32 false, .mk "k" .int32 false]) false)
              false) false,
          Arr.mapA (.mk "entries" (.struct [.mk "v" .int32 false, .mk "k" .int32 false]) false)
            [0, 2]
            (.struct [.mk "v" .int32 false, .mk "k" .int32 false]
              [.prim .int32 [some 5, some 6], .prim .int32 [some 1, some 2]] none)
            (some [true]) false)) := by
      simp only [reorderMap, reorderStructArray, reorderLoop, ReorderIndex.identity,
        ReorderIndex.index, ReorderIndex.transform, orderingNeedsTransform,
        orderingWindowsAny, ReorderIndex.needsTransform, setSlot, structTryNew, mapTryNew,
        offsetsOk, offsetsMono, Arr.len, Arr.dataType, Arr.structFields, Arr.isNullable,
        Arr.nullCount, Arr.nullsOf, ArrowField.name, ArrowField.nullable,
        ArrowDataType.beqFull, ArrowField.beq, ArrowField.beqList, nullsLenOk, bind,
        Except.bind, List.get?, List.replicate, List.set, List.filterMap, List.length,
        List.zip, List.zipWith, List.all, List.map, Option.isSome]
      simp [ArrowDataType.beqFull, ArrowField.beq, ArrowField.beqList, Arr.len, Arr.dataType,
        ArrowField.dataType, ArrowField.name, List.filterMap_cons, offsetsOk, offsetsMono,
        List.getLastD]
    obtain ⟨nf, entries, hout⟩ := c9_container_buffers_pass_through.2.2 _ _ _ _ _ _ _ _ _ h3
    exact ⟨_, _, nf, entries, h3, hout⟩

/-! ## Claim C1: the failing widening-under-list input

Planning a logical `array(long)` against a physical `List(int32)` succeeds
and promotes the element's Cast transform to the list column itself (the
list arm of `get_indices` rewrites the single child's index and emits the
child node directly).  The reorderer's Cast arm then asks arrow to cast the
list column to Int64, which no arrow cast supports, so applying the produced
plan to any matching decoded batch fails instead of producing a batch shaped
like the logical schema. -/

set_option maxHeartbeats 4000000 in
/-- **C1** (evaluation at the failing input): planning succeeds with a plan
that carries a Cast-to-Int64 node for the list column, and applying that plan
to a matching batch errors with an arrow cast error, so the round-trip
property fails. -/
theorem c1_widening_under_list_breaks_reorder :
    getRequestedIndices c1Requested c1Parquet
      = .ok ([0], [ReorderIndex.cast 0 .int64]) ∧
    reorderStructArray c1Batch [ReorderIndex.cast 0 .int64]
      = .error (.arrowError "Cast error") := by
  constructor
  · have h1 : KDataType.beq (.array .long true) unshreddedVariant = false := rfl
    have h2 : KDataType.beq .long unshreddedVariant = false := rfl
    have h3 : ensureDataTypes .long .int32 = .ok (.needsCast .int64) := rfl
    simp only [c1Requested, c1Parquet, getRequestedIndices, getIndices, giLoop, giStep,
      getFull, getFull.go, h1, h2, h3, insertFound, missingScan,
      KStructField.name, KStructField.dataType, KStructField.nullable, ArrowField.name,
      ArrowField.dataType, ArrowField.nullable, ReorderIndex.identity, ReorderIndex.cast,
      ReorderIndex.index, ReorderIndex.transform, bind, Except.bind, pure, Except.pure]
    rfl
  · simp only [c1Batch, reorderStructArray, reorderLoop, ReorderIndex.cast,
      ReorderIndex.index, ReorderIndex.transform, orderingNeedsTransform,
      orderingWindowsAny, ReorderIndex.needsTransform, arrowCast, setSlot, bind,
      Except.bind, List.get?]
    rfl

/-! ## Claim C8: the counterexample to the identity-range property -/

set_option maxHeartbeats 4000000 in
/-- Counterexample to C8 as stated: the logical schema [b] occurs in the
physical schema [a, b] in identical order with identical types, planning
succeeds and needs no transform, but the projection indices are [1] — the
position of b among the physical leaves — not the identity range [0]. -/
theorem c8_counterexample_subset_mask_not_identity :
    getRequestedIndices c8Requested c8Parquet
      = .ok ([1], [ReorderIndex.identity 0]) ∧
    ([1] : List Nat) ≠ List.range 1 := by
  constructor
  · have h1 : KDataType.beq .integer unshreddedVariant = false := rfl
    have h3 : ensureDataTypes .integer .int32 = .ok .identical := rfl
    simp only [c8Requested, c8Parquet, getRequestedIndices, getIndices, giLoop, giStep,
      getFull, getFull.go, h1, h3, insertFound, missingScan, countCols, countColsDT,
      countColsList, KStructField.name, KStructField.dataType, KStructField.nullable,
      ArrowField.name, ArrowField.dataType, ArrowField.nullable, ReorderIndex.identity,
      ReorderIndex.index, ReorderIndex.transform, bind, Except.bind, pure, Except.pure]
    rfl
  · decide

end DK

namespace DK

theorem getFull_go_name : ∀ (req : List KStructField) (name : String) (k : Nat) (i : Nat)
    (rf : KStructField), getFull.go name k req = some (i, rf) → rf.name = name
  | [], _, _, _, _, h => by simp [getFull.go] at h
  | f :: rest, name, k, i, rf, h => by
      simp only [getFull.go] at h
      split at h
      · simp at h
        rw [← h.2]
        assumption
      · exact getFull_go_name rest name (k + 1) i rf h

theorem getFull_name {req : List KStructField} {name : String} {i : Nat} {rf : KStructField}
    (h : getFull req name = some (i, rf)) : rf.name = name :=
  getFull_go_name req name 0 i rf h

set_option maxHeartbeats 4000000 in
theorem giStep_ok_inv (req : List KStructField) (st : GiState) (n : String)
    (dt : ArrowDataType) (b : Bool) (st' : GiState)
    (h : giStep req st (.mk n dt b) = .ok st') :
    (getFull req n = none ∧ st'.found = st.found ∧ st'.reorders = st.reorders ∧
      st'.mask = st.mask) ∨
    (∃ idx rf node maskAdd poff2,
      getFull req n = some (idx, rf) ∧
      st' = ⟨st.parquetIndex + 1, poff2, insertFound st.found rf.name,
             st.reorders ++ [node], st.mask ++ maskAdd⟩ ∧
      node.index = idx) := by
  simp only [giStep] at h
  cases hget : getFull req n with
  | none =>
      rw [hget] at h
      simp only at h
      left
      have := Except.ok.inj h
      rw [← this]
      exact ⟨rfl, rfl, rfl, rfl⟩
  | some p =>
      obtain ⟨idx, rf⟩ := p
      rw [hget] at h
      simp only [bind, Except.bind] at h
      right
      repeat' split at h
      all_goals
        first
        | exact Except.noConfusion h
        | (obtain rfl := Except.ok.inj h
           exact ⟨idx, rf, _, _, _, rfl, rfl, by first | rfl | (split <;> rfl)⟩)

end DK

namespace DK

theorem getFull_go_mem : ∀ (req : List KStructField) (name : String) (k i : Nat)
    (rf : KStructField), getFull.go name k req = some (i, rf) → rf ∈ req
  | [], _, _, _, _, h => by simp [getFull.go] at h
  | f :: rest, name, k, i, rf, h => by
      simp only [getFull.go] at h
      split at h
      · simp at h
        rw [← h.2]
        exact List.mem_cons_self f rest
      · exact List.mem_cons_of_mem f (getFull_go_mem rest name (k + 1) i rf h)

theorem getFull_mem_names {req : List KStructField} {name : String} {i : Nat}
    {rf : KStructField} (h : getFull req name = some (i, rf)) :
    rf.name ∈ req.map KStructField.name :=
  List.mem_map_of_mem KStructField.name (getFull_go_mem req name 0 i rf h)

theorem insertFound_mem {found : List String} {nm x : String}
    (h : x ∈ insertFound found nm) : x ∈ found ∨ x = nm := by
  by_cases hmem : nm ∈ found
  · simp [insertFound, hmem] at h
    exact Or.inl h
  · simp [insertFound, hmem] at h
    rcases h with h | h
    · exact Or.inr h
    · exact Or.inl h

theorem insertFound_nodup {found : List String} {nm : String} (h : found.Nodup) :
    (insertFound found nm).Nodup := by
  by_cases hmem : nm ∈ found
  · simpa [insertFound, hmem] using h
  · rw [insertFound, if_neg hmem]
    exact List.nodup_cons.mpr ⟨hmem, h⟩

theorem insertFound_self {found : List String} {nm : String} :
    nm ∈ insertFound found nm := by
  by_cases hmem : nm ∈ found <;> simp [insertFound, hmem]

theorem giLoop_cons_inv {req : List KStructField} {st : GiState} {f : ArrowField}
    {rest : List ArrowField} {st' : GiState}
    (h : giLoop req st (f :: rest) = .ok st') :
    ∃ st1, giStep req st f = .ok st1 ∧ giLoop req st1 rest = .ok st' := by
  rw [giLoop] at h
  cases hs : giStep req st f with
  | error e => rw [hs] at h; simp [bind, Except.bind] at h
  | ok st1 =>
      rw [hs] at h
      simp only [bind, Except.bind] at h
      exact ⟨st1, rfl, h⟩

theorem giLoop_found : ∀ (fields : List ArrowField) (req : List KStructField)
    (st st' : GiState), giLoop req st fields = .ok st' →
    (∀ x ∈ st'.found, x ∈ st.found ∨
      (x ∈ fields.map ArrowField.name ∧ x ∈ req.map KStructField.name)) ∧
    (st.found.Nodup → st'.found.Nodup)
  | [], req, st, st', h => by
      have : st = st' := by simpa [giLoop] using h
      subst this
      exact ⟨fun x hx => Or.inl hx, fun h => h⟩
  | f :: rest, req, st, st', h => by
      obtain ⟨st1, hstep, hloop⟩ := giLoop_cons_inv h
      obtain ⟨ih1, ih2⟩ := giLoop_found rest req st1 st' hloop
      cases f with
      | mk n dt b =>
          rcases giStep_ok_inv req st n dt b st1 hstep with
            ⟨_, hfound, _, _⟩ | ⟨idx, rf, node, maskAdd, poff2, hget, hrec, _⟩
          · constructor
            · intro x hx
              rcases ih1 x hx with hx1 | ⟨hx1, hx2⟩
              · rw [hfound] at hx1
                exact Or.inl hx1
              · exact Or.inr ⟨List.mem_cons_of_mem _ hx1, hx2⟩
            · intro hnd
              exact ih2 (by rwa [hfound])
          · have hname : rf.name = n := getFull_name hget
            have hmemreq : rf.name ∈ req.map KStructField.name := getFull_mem_names hget
            have hfound1 : st1.found = insertFound st.found rf.name := by rw [hrec]
            constructor
            · intro x hx
              rcases ih1 x hx with hx1 | ⟨hx1, hx2⟩
              · rw [hfound1] at hx1
                rcases insertFound_mem hx1 with hx2 | hx2
                · exact Or.inl hx2
                · refine Or.inr ⟨?_, by rw [hx2]; exact hmemreq⟩
                  rw [hx2, hname]
                  simp [ArrowField.name]
              · exact Or.inr ⟨List.mem_cons_of_mem _ hx1, hx2⟩
            · intro hnd
              refine ih2 ?_
              rw [hfound1]
              exact insertFound_nodup hnd

theorem getIndices_ok_inv {start : Nat} {req : List KStructField} {fields : List ArrowField}
    {adv : Nat} {plan : List ReorderIndex} {mask : List Nat}
    (h : getIndices start req fields = .ok (adv, plan, mask)) :
    ∃ st', giLoop req ⟨0, start, [], [], []⟩ fields = .ok st' ∧ mask = st'.mask ∧
      ((st'.found.length ≠ req.length ∧
        ∃ tail, missingScan st'.found 0 req = .ok tail ∧ plan = st'.reorders ++ tail) ∨
       (st'.found.length = req.length ∧ plan = st'.reorders)) := by
  rw [getIndices] at h
  cases hl : giLoop req ⟨0, start, [], [], []⟩ fields with
  | error e => rw [hl] at h; simp [bind, Except.bind] at h
  | ok st' =>
      rw [hl] at h
      simp only [bind, Except.bind] at h
      refine ⟨st', rfl, ?_⟩
      split at h
      next hcond =>
        cases hm : missingScan st'.found 0 req with
        | error e =>
            rw [hm] at h
            simp [bind, Except.bind] at h
        | ok tail =>
            rw [hm] at h
            simp only [bind, Except.bind, Except.ok.injEq, Prod.mk.injEq] at h
            exact ⟨h.2.2.symm, Or.inl ⟨hcond, tail, rfl, h.2.1.symm⟩⟩
      next hcond =>
        simp only [Except.ok.injEq, Prod.mk.injEq] at h
        exact ⟨h.2.2.symm, Or.inr ⟨not_not.mp hcond, h.2.1.symm⟩⟩

end DK

namespace DK

theorem missingScan_error : ∀ (req : List KStructField) (found : List String) (i : Nat)
    (f : KStructField), f ∈ req → f.name ∉ found → f.nullable = false →
    ∃ e, missingScan found i req = .error e
  | [], _, _, _, hmem, _, _ => absurd hmem (List.not_mem_nil _)
  | g :: rest, found, i, f, hmem, hnf, hnn => by
      rw [missingScan]
      rcases List.mem_cons.mp hmem with rfl | hmem2
      · rw [if_neg hnf, if_neg (by simp [hnn])]
        exact ⟨_, rfl⟩
      · by_cases hg : g.name ∈ found
        · rw [if_pos hg]
          exact missingScan_error rest found (i + 1) f hmem2 hnf hnn
        · rw [if_neg hg]
          by_cases hgn : g.nullable = true
          · rw [if_pos hgn]
            obtain ⟨e, he⟩ := missingScan_error rest found (i + 1) f hmem2 hnf hnn
            simp only [bind, Except.bind, he]
            exact ⟨e, rfl⟩
          · rw [if_neg hgn]
            exact ⟨_, rfl⟩

theorem missingScan_ok_eq : ∀ (req : List KStructField) (found : List String) (i : Nat)
    (tail : List ReorderIndex), missingScan found i req = .ok tail →
    tail = missingNodes found i req
  | [], found, i, tail, h => by
      rw [missingScan] at h
      rw [missingNodes, ← Except.ok.inj h]
  | g :: rest, found, i, tail, h => by
      rw [missingScan] at h
      rw [missingNodes]
      by_cases hg : g.name ∈ found
      · rw [if_pos hg] at h
        rw [if_pos hg]
        exact missingScan_ok_eq rest found (i + 1) tail h
      · rw [if_neg hg] at h
        rw [if_neg hg]
        by_cases hgn : g.nullable = true
        · rw [if_pos hgn] at h
          simp only [bind, Except.bind] at h
          cases hm : missingScan found (i + 1) rest with
          | error e => rw [hm] at h; exact Except.noConfusion h
          | ok t =>
              rw [hm] at h
              obtain rfl := Except.ok.inj h
              rw [missingScan_ok_eq rest found (i + 1) t hm]
        · rw [if_neg hgn] at h
          exact Except.noConfusion h

theorem missingNodes_mem : ∀ (req : List KStructField) (matched : List String) (i j : Nat)
    (f : KStructField), req.get? j = some f → f.name ∉ matched →
    ReorderIndex.missing (i + j) (toArrowField f) ∈ missingNodes matched i req
  | [], _, _, j, _, h, _ => by simp at h
  | g :: rest, matched, i, 0, f, h, hnm => by
      obtain rfl : g = f := by simpa using h
      rw [missingNodes, if_neg hnm]
      simpa using List.mem_cons_self _ _
  | g :: rest, matched, i, j + 1, f, h, hnm => by
      have ih := missingNodes_mem rest matched (i + 1) j f (by simpa using h) hnm
      rw [missingNodes]
      have hadd : i + (j + 1) = (i + 1) + j := by omega
      rw [hadd]
      by_cases hg : g.name ∈ matched
      · rw [if_pos hg]
        exact ih
      · rw [if_neg hg]
        exact List.mem_cons_of_mem _ ih

theorem found_full_contains {found : List String} {req : List KStructField}
    (hnd : found.Nodup) (hsub : ∀ x ∈ found, x ∈ req.map KStructField.name)
    (hlen : found.length = req.length) :
    ∀ g ∈ req.map KStructField.name, g ∈ found := by
  classical
  intro g hg
  have h1 : found.toFinset.card = found.length := List.toFinset_card_of_nodup hnd
  have h2 : found.toFinset ⊆ (req.map KStructField.name).toFinset := by
    intro x hx
    rw [List.mem_toFinset] at hx ⊢
    exact hsub x hx
  have h3 : (req.map KStructField.name).toFinset.card ≤ (req.map KStructField.name).length :=
    (req.map KStructField.name).toFinset_card_le
  have h4 : (req.map KStructField.name).length = req.length := List.length_map _ _
  have h5 : found.toFinset = (req.map KStructField.name).toFinset := by
    apply Finset.eq_of_subset_of_card_le h2
    have := Finset.card_le_card h2
    omega
  rw [← List.mem_toFinset, ← h5, List.mem_toFinset] at hg
  exact hg

end DK

namespace DK

theorem except_bind_ok {α β : Type} {e : Except KError α} {f : α → Except KError β} {b : β}
    (h : e >>= f = .ok b) : ∃ a, e = .ok a ∧ f a = .ok b := by
  cases e with
  | error err => exact Except.noConfusion h
  | ok a => exact ⟨a, rfl, h⟩

theorem setSlot_ok {slots : List FieldArrayOpt} {i : Nat} {v : FieldArrayOpt}
    {slots' : List FieldArrayOpt} (h : setSlot slots i v = .ok slots') :
    slots' = slots.set i v ∧ i < slots.length := by
  rw [setSlot] at h
  split at h
  · exact ⟨(Except.ok.inj h).symm, by assumption⟩
  · exact Except.noConfusion h

theorem reorderLoop_cons_inv {inF : List ArrowField} {inC : List Arr}
    {nb : Option (List Bool)} {nr p : Nat} {node : ReorderIndex}
    {rest : List ReorderIndex} {slots slots' : List FieldArrayOpt}
    (h : reorderLoop inF inC nb nr p (node :: rest) slots = .ok slots') :
    ∃ v slots1, setSlot slots node.index v = .ok slots1 ∧
      reorderLoop inF inC nb nr (p + 1) rest slots1 = .ok slots' ∧
      ∀ field, node.transform = .missing field →
        v = some (field, newNullArray field.dataType nr) := by
  rw [reorderLoop] at h
  cases node with
  | mk idx tr =>
      cases tr with
      | cast target =>
          simp only [ReorderIndex.transform, ReorderIndex.index] at h ⊢
          cases hc : inC.get? p with
          | none => rw [hc] at h; exact Except.noConfusion h
          | some c =>
              rw [hc] at h
              obtain ⟨c1, hc1, h⟩ := except_bind_ok h
              obtain rfl := Except.ok.inj hc1
              obtain ⟨col2, h2, h⟩ := except_bind_ok h
              cases hf : inF.get? p with
              | none => rw [hf] at h; exact Except.noConfusion h
              | some fldI =>
                  rw [hf] at h
                  obtain ⟨f1, hf1, h⟩ := except_bind_ok h
                  obtain rfl := Except.ok.inj hf1
                  obtain ⟨s1, hset, h⟩ := except_bind_ok h
                  exact ⟨_, s1, hset, h,
                    fun field hfld => ReorderIndexTransform.noConfusion hfld⟩
      | identity =>
          simp only [ReorderIndex.transform, ReorderIndex.index] at h ⊢
          cases hf : inF.get? p with
          | none => rw [hf] at h; exact Except.noConfusion h
          | some fldI =>
              rw [hf] at h
              obtain ⟨f1, hf1, h⟩ := except_bind_ok h
              obtain rfl := Except.ok.inj hf1
              cases hc : inC.get? p with
              | none => rw [hc] at h; exact Except.noConfusion h
              | some c =>
                  rw [hc] at h
                  obtain ⟨c1, hc1, h⟩ := except_bind_ok h
                  obtain rfl := Except.ok.inj hc1
                  obtain ⟨s1, hset, h⟩ := except_bind_ok h
                  exact ⟨_, s1, hset, h,
                    fun field hfld => ReorderIndexTransform.noConfusion hfld⟩
      | missing fld =>
          simp only [ReorderIndex.transform, ReorderIndex.index] at h ⊢
          obtain ⟨s1, hset, h⟩ := except_bind_ok h
          exact ⟨_, s1, hset, h, fun field hfld => by
            injection hfld with h2
            rw [h2]⟩
      | nested children =>
          simp only [ReorderIndex.transform, ReorderIndex.index] at h ⊢
          cases hf : inF.get? p with
          | none => rw [hf] at h; exact Except.noConfusion h
          | some fldI =>
              rw [hf] at h
              obtain ⟨f1, hf1, h⟩ := except_bind_ok h
              obtain rfl := Except.ok.inj hf1
              split at h
              · exact Except.noConfusion h
              · next col hcol =>
                  cases col with
                  | prim dt vals => exact Except.noConfusion h
                  | struct sf sc sn =>
                      obtain ⟨res, h2, h⟩ := except_bind_ok h
                      obtain ⟨s1, hset, h⟩ := except_bind_ok h
                      exact ⟨_, s1, hset, h,
                        fun field hfld => ReorderIndexTransform.noConfusion hfld⟩
                  | listA lf loff lch lnulls =>
                      obtain ⟨r, h2, h⟩ := except_bind_ok h
                      obtain ⟨s1, hset, h⟩ := except_bind_ok h
                      exact ⟨_, s1, hset, h,
                        fun field hfld => ReorderIndexTransform.noConfusion hfld⟩
                  | largeListA lf loff lch lnulls =>
                      obtain ⟨r, h2, h⟩ := except_bind_ok h
                      obtain ⟨s1, hset, h⟩ := except_bind_ok h
                      exact ⟨_, s1, hset, h,
                        fun field hfld => ReorderIndexTransform.noConfusion hfld⟩
                  | mapA mf moff mch mnulls mord =>
                      obtain ⟨r, h2, h⟩ := except_bind_ok h
                      obtain ⟨s1, hset, h⟩ := except_bind_ok h
                      exact ⟨_, s1, hset, h,
                        fun field hfld => ReorderIndexTransform.noConfusion hfld⟩

theorem reorderLoop_frame : ∀ (nodes : List ReorderIndex) (inF : List ArrowField)
    (inC : List Arr) (nb : Option (List Bool)) (nr p : Nat)
    (slots slots' : List FieldArrayOpt),
    reorderLoop inF inC nb nr p nodes slots = .ok slots' →
    slots'.length = slots.length ∧
    ∀ j, (∀ node ∈ nodes, node.index ≠ j) → slots'[j]? = slots[j]?
  | [], inF, inC, nb, nr, p, slots, slots', h => by
      rw [reorderLoop] at h
      obtain rfl := Except.ok.inj h
      exact ⟨rfl, fun j _ => rfl⟩
  | node :: restNodes, inF, inC, nb, nr, p, slots, slots', h => by
      obtain ⟨v, slots1, hset, hrest, _⟩ := reorderLoop_cons_inv h
      obtain ⟨rfl, hlt⟩ := setSlot_ok hset
      obtain ⟨ihlen, ihframe⟩ :=
        reorderLoop_frame restNodes inF inC nb nr (p + 1) (slots.set node.index v) slots' hrest
      constructor
      · rw [ihlen, List.length_set]
      · intro j hj
        rw [ihframe j (fun n hn => hj n (List.mem_cons_of_mem _ hn))]
        exact List.getElem?_set_ne (hj node (List.mem_cons_self _ _))

theorem getElem?_set_lt {α : Type} (l : List α) (i : Nat) (a : α) (h : i < l.length) :
    (l.set i a)[i]? = some a := by
  rw [List.getElem?_eq_getElem (by simpa using h)]
  simp

theorem reorderLoop_missing_write : ∀ (nodes : List ReorderIndex) (inF : List ArrowField)
    (inC : List Arr) (nb : Option (List Bool)) (nr p j : Nat) (fld : ArrowField)
    (slots slots' : List FieldArrayOpt),
    (nodes.map ReorderIndex.index).Nodup →
    ReorderIndex.missing j fld ∈ nodes →
    reorderLoop inF inC nb nr p nodes slots = .ok slots' →
    slots'[j]? = some (some (fld, newNullArray fld.dataType nr))
  | [], _, _, _, _, _, _, _, _, _, _, hmem, _ => absurd hmem (List.not_mem_nil _)
  | node :: restNodes, inF, inC, nb, nr, p, j, fld, slots, slots', hnd, hmem, h => by
      obtain ⟨v, slots1, hset, hrest, hmiss⟩ := reorderLoop_cons_inv h
      obtain ⟨rfl, hlt⟩ := setSlot_ok hset
      rcases List.mem_cons.mp hmem with rfl | hmem2
      · have hv : v = some (fld, newNullArray fld.dataType nr) := hmiss fld rfl
        have hnotin : ∀ n ∈ restNodes, n.index ≠ j := by
          intro n hn hne
          have hno : (ReorderIndex.missing j fld).index ∉ restNodes.map ReorderIndex.index :=
            (List.nodup_cons.mp hnd).1
          have hmm : n.index ∈ restNodes.map ReorderIndex.index :=
            List.mem_map_of_mem ReorderIndex.index hn
          rw [hne] at hmm
          exact hno hmm
        obtain ⟨_, hframe⟩ :=
          reorderLoop_frame restNodes inF inC nb nr (p + 1) _ slots' hrest
        rw [hframe j hnotin, hv]
        simp only [ReorderIndex.missing, ReorderIndex.index] at hlt ⊢
        exact getElem?_set_lt slots j _ hlt
      · have hnd2 : (restNodes.map ReorderIndex.index).Nodup := (List.nodup_cons.mp hnd).2
        exact reorderLoop_missing_write restNodes inF inC nb nr (p + 1) j fld _ slots'
          hnd2 hmem2 hrest

theorem filterMap_id_full {α : Type} : ∀ (slots : List (Option α)),
    (slots.filterMap id).length = slots.length →
    ∀ (j : Nat) (v : α), slots[j]? = some (some v) → (slots.filterMap id)[j]? = some v
  | [], _, j, v, hj => by simp at hj
  | o :: rest, hlen, j, v, hj => by
      cases o with
      | none =>
          exfalso
          rw [List.filterMap_cons_none (by rfl)] at hlen
          have := List.length_filterMap_le id rest
          simp at hlen
          omega
      | some a =>
          rw [List.filterMap_cons_some (by rfl)] at hlen ⊢
          cases j with
          | zero =>
              have : a = v := by simpa using hj
              simp [this]
          | succ j =>
              simp only [List.length_cons, Nat.add_right_cancel_iff] at hlen
              have hj2 : rest[j]? = some (some v) := by simpa using hj
              simpa using filterMap_id_full rest hlen j v hj2

theorem specPlan_missing_false : ∀ (plan : List ReorderIndex) (j : Nat) (fld : ArrowField),
    ReorderIndex.missing j fld ∈ plan → specPlanTransformFree plan = false
  | [], _, _, hmem => absurd hmem (List.not_mem_nil _)
  | [a], j, fld, hmem => by
      obtain rfl : ReorderIndex.missing j fld = a := by simpa using hmem
      simp [specPlanTransformFree, specNodeTransformFree, ReorderIndex.missing]
  | a :: b :: rest, j, fld, hmem => by
      rw [specPlanTransformFree]
      rcases List.mem_cons.mp hmem with rfl | hmem2
      · simp [specNodeTransformFree, ReorderIndex.missing]
      · rw [specPlan_missing_false (b :: rest) j fld hmem2]
        simp

theorem reorderStructArray_ok_inv {inF : List ArrowField} {inC : List Arr}
    {nb : Option (List Bool)} {plan : List ReorderIndex} {out : Arr}
    (hneeds : orderingNeedsTransform plan = true)
    (h : reorderStructArray (.struct inF inC nb) plan = .ok out) :
    ∃ slots', reorderLoop inF inC nb (Arr.len (.struct inF inC nb)) 0 plan
        (List.replicate plan.length none) = .ok slots' ∧
      (slots'.filterMap id).length = plan.length ∧
      out = .struct ((slots'.filterMap id).map Prod.fst)
        ((slots'.filterMap id).map Prod.snd) nb := by
  rw [reorderStructArray] at h
  rw [hneeds] at h
  rw [if_neg (by simp)] at h
  obtain ⟨slots', hloop, h⟩ := except_bind_ok h
  simp only [ne_eq] at h
  split at h
  · exact Except.noConfusion h
  · next hne =>
      exact ⟨slots', hloop, not_not.mp hne, structTryNew_ok h⟩

theorem replicate_getD : ∀ (n i : Nat) (b d : Bool), i < n → (List.replicate n b).getD i d = b
  | 0, i, _, _, h => absurd h (by omega)
  | n + 1, 0, b, d, _ => rfl
  | n + 1, i + 1, b, d, h => replicate_getD n i b d (by omega)

theorem newNullArray_len (dt : ArrowDataType) (n : Nat) : (newNullArray dt n).len = n := by
  cases dt with
  | struct fields =>
      cases fields with
      | nil => rw [newNullArray]; simp [newNullCols, Arr.len]
      | cons f rest =>
          cases f with
          | mk fn fdt fb =>
              rw [newNullArray, newNullCols]
              simp only [Arr.len]
              exact newNullArray_len fdt n
  | list f => cases f with | mk fn fdt fb => rw [newNullArray]; simp [Arr.len]
  | largeList f => cases f with | mk fn fdt fb => rw [newNullArray]; simp [Arr.len]
  | map f s => cases f with | mk fn fdt fb => rw [newNullArray]; simp [Arr.len]
  | listView f => rw [newNullArray] <;> simp [Arr.len]
  | fixedSizeList f k => rw [newNullArray] <;> simp [Arr.len]
  | int8 => rw [newNullArray] <;> simp [Arr.len]
  | int16 => rw [newNullArray] <;> simp [Arr.len]
  | int32 => rw [newNullArray] <;> simp [Arr.len]
  | int64 => rw [newNullArray] <;> simp [Arr.len]
  | float32 => rw [newNullArray] <;> simp [Arr.len]
  | float64 => rw [newNullArray] <;> simp [Arr.len]
  | boolean => rw [newNullArray] <;> simp [Arr.len]
  | utf8 => rw [newNullArray] <;> simp [Arr.len]
  | binary => rw [newNullArray] <;> simp [Arr.len]
  | date32 => rw [newNullArray] <;> simp [Arr.len]
  | timestampMicroUtc => rw [newNullArray] <;> simp [Arr.len]
  | timestampMicroNtz => rw [newNullArray] <;> simp [Arr.len]
  | decimal p s => rw [newNullArray] <;> simp [Arr.len]
termination_by sizeOf dt
decreasing_by
  all_goals simp_wf
  all_goals first
    | omega
    | (simp; omega)

theorem newNullArray_validAt (dt : ArrowDataType) (n i : Nat) (hi : i < n) :
    (newNullArray dt n).validAt i = false := by
  cases dt with
  | struct fields =>
      rw [newNullArray]
      simp only [Arr.validAt, Arr.nullsOf]
      exact replicate_getD n i false true hi
  | list f =>
      cases f with
      | mk fn fdt fb =>
          rw [newNullArray]
          simp only [Arr.validAt, Arr.nullsOf]
          exact replicate_getD n i false true hi
  | largeList f =>
      cases f with
      | mk fn fdt fb =>
          rw [newNullArray]
          simp only [Arr.validAt, Arr.nullsOf]
          exact replicate_getD n i false true hi
  | map f s =>
      cases f with
      | mk fn fdt fb =>
          rw [newNullArray]
          simp only [Arr.validAt, Arr.nullsOf]
          exact replicate_getD n i false true hi
  | listView f =>
      rw [newNullArray]
      · simp only [Arr.validAt, Arr.nullsOf, List.map_replicate, Option.isSome_none]
        exact replicate_getD n i false true hi
      all_goals simp
  | fixedSizeList f k =>
      rw [newNullArray]
      · simp only [Arr.validAt, Arr.nullsOf, List.map_replicate, Option.isSome_none]
        exact replicate_getD n i false true hi
      all_goals simp
  | int8 =>
      rw [newNullArray]
      · simp only [Arr.validAt, Arr.nullsOf, List.map_replicate, Option.isSome_none]
        exact replicate_getD n i false true hi
      all_goals simp
  | int16 =>
      rw [newNullArray]
      · simp only [Arr.validAt, Arr.nullsOf, List.map_replicate, Option.isSome_none]
        exact replicate_getD n i false true hi
      all_goals simp
  | int32 =>
      rw [newNullArray]
      · simp only [Arr.validAt, Arr.nullsOf, List.map_replicate, Option.isSome_none]
        exact replicate_getD n i false true hi
      all_goals simp
  | int64 =>
      rw [newNullArray]
      · simp only [Arr.validAt, Arr.nullsOf, List.map_replicate, Option.isSome_none]
        exact replicate_getD n i false true hi
      all_goals simp
  | float32 =>
      rw [newNullArray]
      · simp only [Arr.validAt, Arr.nullsOf, List.map_replicate, Option.isSome_none]
        exact replicate_getD n i false true hi
      all_goals simp
  | float64 =>
      rw [newNullArray]
      · simp only [Arr.validAt, Arr.nullsOf, List.map_replicate, Option.isSome_none]
        exact replicate_getD n i false true hi
      all_goals simp
  | boolean =>
      rw [newNullArray]
      · simp only [Arr.validAt, Arr.nullsOf, List.map_replicate, Option.isSome_none]
        exact replicate_getD n i false true hi
      all_goals simp
  | utf8 =>
      rw [newNullArray]
      · simp only [Arr.validAt, Arr.nullsOf, List.map_replicate, Option.isSome_none]
        exact replicate_getD n i false true hi
      all_goals simp
  | binary =>
      rw [newNullArray]
      · simp only [Arr.validAt, Arr.nullsOf, List.map_replicate, Option.isSome_none]
        exact replicate_getD n i false true hi
      all_goals simp
  | date32 =>
      rw [newNullArray]
      · simp only [Arr.validAt, Arr.nullsOf, List.map_replicate, Option.isSome_none]
        exact replicate_getD n i false true hi
      all_goals simp
  | timestampMicroUtc =>
      rw [newNullArray]
      · simp only [Arr.validAt, Arr.nullsOf, List.map_replicate, Option.isSome_none]
        exact replicate_getD n i false true hi
      all_goals simp
  | timestampMicroNtz =>
      rw [newNullArray]
      · simp only [Arr.validAt, Arr.nullsOf, List.map_replicate, Option.isSome_none]
        exact replicate_getD n i false true hi
      all_goals simp
  | decimal p s =>
      rw [newNullArray]
      · simp only [Arr.validAt, Arr.nullsOf, List.map_replicate, Option.isSome_none]
        exact replicate_getD n i false true hi
      all_goals simp

end DK

namespace DK

/-- **C3.** A logical field absent from the physical schema: if non-nullable,
planning fails; if nullable, planning appends a `Missing` node carrying the
field's logical position and synthesized arrow field (unmatched fields in
logical declaration order), and a successful reorder under any plan carrying
that node materializes at the field's logical slot an all-null column of the
field's arrow type whose length is the batch's row count. -/
theorem c3_missing_field_handling (req : List KStructField) (fields : List ArrowField)
    (f : KStructField) (j : Nat)
    (hj : req.get? j = some f)
    (habsent : f.name ∉ fields.map ArrowField.name) :
    (f.nullable = false → ∀ start out, getIndices start req fields ≠ .ok out) ∧
    (f.nullable = true → ∀ start adv plan mask,
      getIndices start req fields = .ok (adv, plan, mask) →
      ∃ pre matched, f.name ∉ matched ∧
        plan = pre ++ missingNodes matched 0 req ∧
        ReorderIndex.missing j (toArrowField f) ∈ plan) ∧
    (∀ plan inF inC nb out,
      (plan.map ReorderIndex.index).Nodup →
      ReorderIndex.missing j (toArrowField f) ∈ plan →
      reorderStructArray (.struct inF inC nb) plan = .ok out →
      ∃ outF outC,
        out = .struct outF outC nb ∧
        outF[j]? = some (toArrowField f) ∧
        outC[j]? = some (newNullArray (toArrowField f).dataType
          (Arr.len (.struct inF inC nb))) ∧
        (newNullArray (toArrowField f).dataType (Arr.len (.struct inF inC nb))).len
          = Arr.len (.struct inF inC nb) ∧
        ∀ i, i < Arr.len (.struct inF inC nb) →
          (newNullArray (toArrowField f).dataType
            (Arr.len (.struct inF inC nb))).validAt i = false) := by
  have hfmem : f ∈ req := List.get?_mem hj
  have hfreq : f.name ∈ req.map KStructField.name :=
    List.mem_map_of_mem KStructField.name hfmem
  have hcommon : ∀ start adv plan mask,
      getIndices start req fields = .ok (adv, plan, mask) →
      ∃ st', giLoop req ⟨0, start, [], [], []⟩ fields = .ok st' ∧
        f.name ∉ st'.found ∧
        ∃ tail, missingScan st'.found 0 req = .ok tail ∧ plan = st'.reorders ++ tail := by
    intro start adv plan mask hok
    obtain ⟨st', hloop, hmask, hbr⟩ := getIndices_ok_inv hok
    obtain ⟨hsub, hnd⟩ := giLoop_found fields req _ st' hloop
    have hsub2 : ∀ x ∈ st'.found, x ∈ fields.map ArrowField.name ∧
        x ∈ req.map KStructField.name := by
      intro x hx
      rcases hsub x hx with hx1 | hx2
      · exact absurd hx1 (List.not_mem_nil x)
      · exact hx2
    have hfni : f.name ∉ st'.found := fun hmem => habsent (hsub2 f.name hmem).1
    rcases hbr with ⟨hne, tail, hms, hplan⟩ | ⟨hlen, hplan⟩
    · exact ⟨st', hloop, hfni, tail, hms, hplan⟩
    · exfalso
      have hndf : st'.found.Nodup := hnd List.nodup_nil
      exact hfni (found_full_contains hndf (fun x hx => (hsub2 x hx).2) hlen f.name hfreq)
  refine ⟨?_, ?_, ?_⟩
  · intro hnn start out hok
    obtain ⟨adv, plan, mask⟩ := out
    obtain ⟨st', _, hfni, tail, hms, _⟩ := hcommon start adv plan mask hok
    obtain ⟨e, he⟩ := missingScan_error req st'.found 0 f hfmem hfni hnn
    rw [he] at hms
    exact Except.noConfusion hms
  · intro _ start adv plan mask hok
    obtain ⟨st', _, hfni, tail, hms, hplan⟩ := hcommon start adv plan mask hok
    refine ⟨st'.reorders, st'.found, hfni, ?_, ?_⟩
    · rw [hplan, missingScan_ok_eq req st'.found 0 tail hms]
    · have hmm := missingNodes_mem req st'.found 0 j f hj hfni
      rw [Nat.zero_add] at hmm
      rw [hplan, missingScan_ok_eq req st'.found 0 tail hms]
      exact List.mem_append_right _ hmm
  · intro plan inF inC nb out hnodup hmem hok
    have hneeds : orderingNeedsTransform plan = true := by
      rw [orderingNeedsTransform_eq_not_specPlan plan,
        specPlan_missing_false plan j (toArrowField f) hmem]
      rfl
    obtain ⟨slots', hloop, hfm, hout⟩ := reorderStructArray_ok_inv hneeds hok
    have hwrite := reorderLoop_missing_write plan inF inC nb
      (Arr.len (.struct inF inC nb)) 0 j (toArrowField f) _ slots' hnodup hmem hloop
    have hslen : slots'.length = plan.length := by
      have := (reorderLoop_frame plan inF inC nb
        (Arr.len (.struct inF inC nb)) 0 _ slots' hloop).1
      simpa using this
    have hfull : (slots'.filterMap id).length = slots'.length := by rw [hfm, hslen]
    have hidx := filterMap_id_full slots' hfull j _ hwrite
    refine ⟨_, _, hout, ?_, ?_, newNullArray_len _ _,
      fun i hi => newNullArray_validAt _ _ i hi⟩
    · rw [List.getElem?_map, hidx]
      rfl
    · rw [List.getElem?_map, hidx]
      rfl

end DK

namespace DK

set_option maxHeartbeats 1000000 in
/-- Witness for C3: a non-nullable requested field `v` absent from the
physical schema fails planning; the same field, nullable, gets a `Missing`
node at logical position 0, and reordering a 2-row batch under that plan
yields the all-null `Int32` column. -/
theorem c3_missing_field_handling_witness :
    (getIndices 0 [KStructField.mk "v" KDataType.integer false]
        [ArrowField.mk "w" ArrowDataType.int32 true] ≠ .ok (0, [], [])) ∧
    (∃ pre matched, ("v" : String) ∉ matched ∧
        [ReorderIndex.missing 0 (ArrowField.mk "v" ArrowDataType.int32 true)]
          = pre ++ missingNodes matched 0 [KStructField.mk "v" KDataType.integer true] ∧
        ReorderIndex.missing 0 (ArrowField.mk "v" ArrowDataType.int32 true)
          ∈ [ReorderIndex.missing 0 (ArrowField.mk "v" ArrowDataType.int32 true)]) ∧
    (∃ outF outC,
        Arr.struct [ArrowField.mk "v" ArrowDataType.int32 true]
          [Arr.prim ArrowDataType.int32 [none, none]] none = .struct outF outC none ∧
        outF[0]? = some (ArrowField.mk "v" ArrowDataType.int32 true) ∧
        outC[0]? = some (newNullArray ArrowDataType.int32 2) ∧
        (newNullArray ArrowDataType.int32 2).len = 2 ∧
        ∀ i, i < 2 → (newNullArray ArrowDataType.int32 2).validAt i = false) := by
  have hok : getIndices 0 [KStructField.mk "v" KDataType.integer true] []
      = .ok (0, [ReorderIndex.missing 0 (ArrowField.mk "v" ArrowDataType.int32 true)], []) := by
    simp only [getIndices, giLoop, missingScan, toArrowField, kToArrowDT,
      KStructField.name, KStructField.nullable, bind, Except.bind]
    simp [missingScan, toArrowField, kToArrowDT]
  have hna : newNullArray ArrowDataType.int32 2
      = Arr.prim ArrowDataType.int32 [none, none] := by
    rw [newNullArray] <;> simp [List.replicate]
  have h3 : reorderStructArray (Arr.struct [ArrowField.mk "w" ArrowDataType.int32 true]
        [Arr.prim ArrowDataType.int32 [some 5, some 6]] none)
        [ReorderIndex.missing 0 (ArrowField.mk "v" ArrowDataType.int32 true)]
      = .ok (Arr.struct [ArrowField.mk "v" ArrowDataType.int32 true]
        [Arr.prim ArrowDataType.int32 [none, none]] none) := by
    simp only [reorderStructArray, reorderLoop, ReorderIndex.missing, ReorderIndex.index,
      ReorderIndex.transform, orderingNeedsTransform, orderingWindowsAny,
      ReorderIndex.needsTransform, setSlot, structTryNew, hna, Arr.len, Arr.dataType,
      ArrowDataType.beqFull, ArrowField.dataType, nullsLenOk, bind, Except.bind,
      List.replicate, List.set, List.filterMap, List.length, List.zip, List.zipWith,
      List.all, List.map, Option.isSome]
    simp [ArrowDataType.beqFull, Arr.len, Arr.dataType, ArrowField.dataType,
      List.filterMap_cons]
  have hthmN := c3_missing_field_handling [KStructField.mk "v" KDataType.integer false]
    [ArrowField.mk "w" ArrowDataType.int32 true]
    (KStructField.mk "v" KDataType.integer false) 0 rfl
    (by simp [ArrowField.name, KStructField.name])
  have hthmY := c3_missing_field_handling [KStructField.mk "v" KDataType.integer true]
    [] (KStructField.mk "v" KDataType.integer true) 0 rfl (by simp)
  refine ⟨hthmN.1 rfl 0 (0, [], []), hthmY.2.1 rfl 0 0 _ [] hok, ?_⟩
  exact hthmY.2.2 _ _ _ none _ (by simp)
    (by simp [List.mem_singleton, toArrowField, kToArrowDT]) h3

end DK
